import Mathlib

/-!
Verification development for the three-quake headless server core:
the BSP brush-model loader (`mod_server.ts`), the box/plane classifier and
entity-fragment linker (`gl_refrag.c` port), and the model registry.

Conventions of the shallow embedding:
* JS numbers holding 32-bit little-endian integers read through `DataView`
  are embedded as `ℤ` via explicit two's-complement decoding from a byte
  function `ℕ → ℕ` (each byte taken mod 256).
* IEEE-754 float payloads (plane normals, distances, vertex coordinates,
  submodel bounds) are embedded as `ℚ`; the 4-byte float decode itself is
  kept abstract as a parameter `g32 : (ℕ → ℕ) → ℕ → ℚ`, since no claim
  depends on a concrete float bit pattern, only on ordered-field arithmetic.
* `Sys_Error` (which terminates the process) and uncaught JS `RangeError`s
  (out-of-range `DataView` construction) are embedded as `Except.error`.
* Heap objects linked through mutable pointer fields (efrags, leaf chains)
  are embedded as identifiers (`ℕ`) with explicit state records; pointer
  identity on distinct JS objects corresponds to identifier equality.
-/

namespace ThreeQuake

/-- A component triple, used for vectors (`Float32Array(3)` / `Int16` box
corners in the source). -/
structure Vec3 (α : Type) where
  x : α
  y : α
  z : α
  deriving DecidableEq

/-- JS-style component access `v[i]` for `i = 0, 1, 2` (the only indices the
source ever uses on these arrays). -/
def Vec3.comp {α : Type} [Inhabited α] (v : Vec3 α) : ℕ → α
  | 0 => v.x
  | 1 => v.y
  | 2 => v.z
  | _ => default

/-- Raw byte buffer handed back by `COM_LoadFile`: a size and a byte
function (reads are always taken mod 256, as a `Uint8Array` stores bytes). -/
structure Bytes where
  size : ℕ
  data : ℕ → ℕ

/-- `DataView.getUint16(off, true)`: two little-endian bytes. -/
def getUint16 (b : ℕ → ℕ) (off : ℕ) : ℕ :=
  b off % 256 + 256 * (b (off + 1) % 256)

/-- `DataView.getInt16(off, true)`: two's-complement 16-bit decode. -/
def getInt16 (b : ℕ → ℕ) (off : ℕ) : ℤ :=
  let u := getUint16 b off
  if u < 32768 then (u : ℤ) else (u : ℤ) - 65536

/-- Unsigned 32-bit little-endian decode. -/
def getUint32 (b : ℕ → ℕ) (off : ℕ) : ℕ :=
  b off % 256 + 256 * (b (off + 1) % 256) + 65536 * (b (off + 2) % 256) +
    16777216 * (b (off + 3) % 256)

/-- `DataView.getInt32(off, true)`: two's-complement 32-bit decode. -/
def getInt32 (b : ℕ → ℕ) (off : ℕ) : ℤ :=
  let u := getUint32 b off
  if u < 2147483648 then (u : ℤ) else (u : ℤ) - 4294967296

-- Contents codes (bspfile constants).
def CONTENTS_EMPTY : ℤ := -1
def CONTENTS_SOLID : ℤ := -2

-- Engine maxima declared in mod_server.ts.
def MAX_MAP_HULLS : ℕ := 4
def MAX_MAP_LEAFS : ℕ := 8192
def BSPVERSION : ℤ := 29
def MAX_MOD_KNOWN : ℕ := 512

/-- In-memory plane (`mplane_t`): normal, distance, axis-type code and the
derived sign mask. -/
structure mplane_t where
  normal : Vec3 ℚ
  dist : ℚ
  type : ℤ
  signbits : ℕ
  deriving DecidableEq

/-- The sign-bits computation of `Mod_LoadPlanes`: `bits |= 1 << j` for each
normal component `j` with `normal[j] < 0`. -/
def calcSignbits (n : Vec3 ℚ) : ℕ :=
  (if n.x < 0 then 1 else 0) + (if n.y < 0 then 2 else 0) +
    (if n.z < 0 then 4 else 0)

/-- The general (non-axial) case of `BOX_ON_PLANE_SIDE`: the 8-way dispatch
on `p.signbits` choosing which box-corner combination to project on the
normal, then the two sign tests producing the 2-bit result. -/
def boxGeneralCase (emins emaxs : Vec3 ℚ) (p : mplane_t) : ℕ :=
  let n := p.normal
  let d12 : ℚ × ℚ :=
    match p.signbits with
    | 0 => (n.x * emaxs.x + n.y * emaxs.y + n.z * emaxs.z,
            n.x * emins.x + n.y * emins.y + n.z * emins.z)
    | 1 => (n.x * emins.x + n.y * emaxs.y + n.z * emaxs.z,
            n.x * emaxs.x + n.y * emins.y + n.z * emins.z)
    | 2 => (n.x * emaxs.x + n.y * emins.y + n.z * emaxs.z,
            n.x * emins.x + n.y * emaxs.y + n.z * emins.z)
    | 3 => (n.x * emins.x + n.y * emins.y + n.z * emaxs.z,
            n.x * emaxs.x + n.y * emaxs.y + n.z * emins.z)
    | 4 => (n.x * emaxs.x + n.y * emaxs.y + n.z * emins.z,
            n.x * emins.x + n.y * emins.y + n.z * emaxs.z)
    | 5 => (n.x * emins.x + n.y * emaxs.y + n.z * emins.z,
            n.x * emaxs.x + n.y * emins.y + n.z * emaxs.z)
    | 6 => (n.x * emaxs.x + n.y * emins.y + n.z * emins.z,
            n.x * emins.x + n.y * emaxs.y + n.z * emaxs.z)
    | 7 => (n.x * emins.x + n.y * emins.y + n.z * emins.z,
            n.x * emaxs.x + n.y * emaxs.y + n.z * emaxs.z)
    | _ => (0, 0)  -- "shut up compiler" default arm
  (if d12.1 ≥ p.dist then 1 else 0) + (if d12.2 < p.dist then 2 else 0)

/-- The fast axial case of `BOX_ON_PLANE_SIDE` for `p.type` = 0, 1, 2:
two scalar comparisons against the `p.type` component of the box. -/
def boxAxialCase (emins emaxs : Vec3 ℚ) (d : ℚ) (t : ℕ) : ℕ :=
  if d ≤ emins.comp t then 1
  else if d ≥ emaxs.comp t then 2
  else 3

/-- `BOX_ON_PLANE_SIDE`: 1 = box entirely on the front side, 2 = entirely on
the back side, 3 = crossing the plane.  For `p.type < 3` the source indexes
`emins[p.type]`; when `p.type` is negative that JS access yields `undefined`,
both comparisons are false, and the function returns 3 — kept faithfully. -/
def BOX_ON_PLANE_SIDE (emins emaxs : Vec3 ℚ) (p : mplane_t) : ℕ :=
  if p.type < 3 then
    if 0 ≤ p.type then boxAxialCase emins emaxs p.dist p.type.toNat
    else 3
  else boxGeneralCase emins emaxs p

/-- An axis-aligned plane record: type code `t < 3`, the corresponding
positive unit-axis normal, distance `d`, and a stored sign-mask field `s`
(the mask derived from a positive axis normal is 0, and any mask whose bit
`t` is clear selects the same corner combination, since the other two normal
components are 0). -/
def axialPlane (t : ℕ) (d : ℚ) (s : ℕ) : mplane_t :=
  { normal := ⟨if t = 0 then 1 else 0, if t = 1 then 1 else 0,
               if t = 2 then 1 else 0⟩
    dist := d
    type := (t : ℤ)
    signbits := s }

/-- Dot product of two embedded 3-vectors. -/
def dot (a b : Vec3 ℚ) : ℚ := a.x * b.x + a.y * b.y + a.z * b.z

/-- The "far" box corner selected by a sign mask `s`: component `i` is the
box minimum when bit `i` of `s` is set (negative normal component), the box
maximum otherwise.  For a plane whose sign mask is derived from its normal
this is the corner with the greatest projection onto the normal. -/
def farPoint (emins emaxs : Vec3 ℚ) (s : ℕ) : Vec3 ℚ :=
  ⟨if s.testBit 0 then emins.x else emaxs.x,
   if s.testBit 1 then emins.y else emaxs.y,
   if s.testBit 2 then emins.z else emaxs.z⟩

/-- The "near" box corner selected by a sign mask `s`: the corner opposite
`farPoint`. -/
def nearPoint (emins emaxs : Vec3 ℚ) (s : ℕ) : Vec3 ℚ :=
  ⟨if s.testBit 0 then emaxs.x else emins.x,
   if s.testBit 1 then emaxs.y else emins.y,
   if s.testBit 2 then emaxs.z else emins.z⟩

/-- A box is well-formed when each minimum is at most the matching maximum. -/
def boxWF (emins emaxs : Vec3 ℚ) : Prop :=
  emins.x ≤ emaxs.x ∧ emins.y ≤ emaxs.y ∧ emins.z ≤ emaxs.z

instance (emins emaxs : Vec3 ℚ) : Decidable (boxWF emins emaxs) := by
  unfold boxWF; infer_instance

/-- On a plane whose stored sign mask agrees with its normal, the 8-way
dispatch of the general case projects exactly the `farPoint` and `nearPoint`
corners onto the normal. -/
theorem boxGeneralCase_eq_corners (emins emaxs : Vec3 ℚ) (p : mplane_t)
    (hs : p.signbits = calcSignbits p.normal) :
    boxGeneralCase emins emaxs p =
      (if dot p.normal (farPoint emins emaxs p.signbits) ≥ p.dist then 1 else 0) +
      (if dot p.normal (nearPoint emins emaxs p.signbits) < p.dist then 2 else 0) := by
  obtain ⟨n, d, t, s⟩ := p
  simp only at hs
  subst hs
  rcases lt_or_le n.x 0 with hx | hx <;> rcases lt_or_le n.y 0 with hy | hy <;>
      rcases lt_or_le n.z 0 with hz | hz
  · simp +decide [boxGeneralCase, calcSignbits, farPoint, nearPoint, dot, hx, hy, hz]
  · simp +decide [boxGeneralCase, calcSignbits, farPoint, nearPoint, dot, hx, hy,
      hz.not_lt]
  · simp +decide [boxGeneralCase, calcSignbits, farPoint, nearPoint, dot, hx,
      hy.not_lt, hz]
  · simp +decide [boxGeneralCase, calcSignbits, farPoint, nearPoint, dot, hx,
      hy.not_lt, hz.not_lt]
  · simp +decide [boxGeneralCase, calcSignbits, farPoint, nearPoint, dot, hx.not_lt,
      hy, hz]
  · simp +decide [boxGeneralCase, calcSignbits, farPoint, nearPoint, dot, hx.not_lt,
      hy, hz.not_lt]
  · simp +decide [boxGeneralCase, calcSignbits, farPoint, nearPoint, dot, hx.not_lt,
      hy.not_lt, hz]
  · simp +decide [boxGeneralCase, calcSignbits, farPoint, nearPoint, dot, hx.not_lt,
      hy.not_lt, hz.not_lt]

/-- For a sign mask `s < 8` whose bit `t` (`t < 3`) is clear, the general
case applied to the positive axis-`t` unit plane reduces to the two scalar
comparisons on component `t` (the other normal components are zero, so the
corner choice there is irrelevant). -/
theorem boxGeneralCase_axial (t : ℕ) (d : ℚ) (s : ℕ) (emins emaxs : Vec3 ℚ)
    (ht : t < 3) (hs : s < 8) (hbit : s.testBit t = false) :
    boxGeneralCase emins emaxs (axialPlane t d s) =
      (if emaxs.comp t ≥ d then 1 else 0) + (if emins.comp t < d then 2 else 0) := by
  interval_cases t <;> interval_cases s <;>
    simp_all +decide [boxGeneralCase, axialPlane, Vec3.comp]

/-- In a well-formed box each selected component pair is ordered. -/
theorem boxWF.comp_le {emins emaxs : Vec3 ℚ} (h : boxWF emins emaxs) (t : ℕ)
    (ht : t < 3) : emins.comp t ≤ emaxs.comp t := by
  interval_cases t <;> simp [Vec3.comp, h.1, h.2.1, h.2.2]

/-- The positive unit-axis normal vectors. -/
def unitAxis (t : ℕ) : Vec3 ℚ :=
  ⟨if t = 0 then 1 else 0, if t = 1 then 1 else 0, if t = 2 then 1 else 0⟩

/-- `farPoint` at the sign mask derived from a normal picks, per component,
the minimum exactly when that normal component is negative. -/
theorem farPoint_calcSignbits (n emins emaxs : Vec3 ℚ) :
    farPoint emins emaxs (calcSignbits n) =
      ⟨if n.x < 0 then emins.x else emaxs.x, if n.y < 0 then emins.y else emaxs.y,
       if n.z < 0 then emins.z else emaxs.z⟩ := by
  rcases lt_or_le n.x 0 with hx | hx <;> rcases lt_or_le n.y 0 with hy | hy <;>
      rcases lt_or_le n.z 0 with hz | hz
  · simp +decide [farPoint, calcSignbits, hx, hy, hz]
  · simp +decide [farPoint, calcSignbits, hx, hy, hz.not_lt]
  · simp +decide [farPoint, calcSignbits, hx, hy.not_lt, hz]
  · simp +decide [farPoint, calcSignbits, hx, hy.not_lt, hz.not_lt]
  · simp +decide [farPoint, calcSignbits, hx.not_lt, hy, hz]
  · simp +decide [farPoint, calcSignbits, hx.not_lt, hy, hz.not_lt]
  · simp +decide [farPoint, calcSignbits, hx.not_lt, hy.not_lt, hz]
  · simp +decide [farPoint, calcSignbits, hx.not_lt, hy.not_lt, hz.not_lt]

/-- `nearPoint` at the derived sign mask picks the opposite corner. -/
theorem nearPoint_calcSignbits (n emins emaxs : Vec3 ℚ) :
    nearPoint emins emaxs (calcSignbits n) =
      ⟨if n.x < 0 then emaxs.x else emins.x, if n.y < 0 then emaxs.y else emins.y,
       if n.z < 0 then emaxs.z else emins.z⟩ := by
  rcases lt_or_le n.x 0 with hx | hx <;> rcases lt_or_le n.y 0 with hy | hy <;>
      rcases lt_or_le n.z 0 with hz | hz
  · simp +decide [nearPoint, calcSignbits, hx, hy, hz]
  · simp +decide [nearPoint, calcSignbits, hx, hy, hz.not_lt]
  · simp +decide [nearPoint, calcSignbits, hx, hy.not_lt, hz]
  · simp +decide [nearPoint, calcSignbits, hx, hy.not_lt, hz.not_lt]
  · simp +decide [nearPoint, calcSignbits, hx.not_lt, hy, hz]
  · simp +decide [nearPoint, calcSignbits, hx.not_lt, hy, hz.not_lt]
  · simp +decide [nearPoint, calcSignbits, hx.not_lt, hy.not_lt, hz]
  · simp +decide [nearPoint, calcSignbits, hx.not_lt, hy.not_lt, hz.not_lt]

/-- One selected term of the near corner is below the matching far term. -/
theorem sel_term_le (a lo hi : ℚ) (hlh : lo ≤ hi) :
    a * (if a < 0 then hi else lo) ≤ a * (if a < 0 then lo else hi) := by
  split_ifs with h
  · exact mul_le_mul_of_nonpos_left hlh h.le
  · exact mul_le_mul_of_nonneg_left hlh (not_lt.mp h)

/-- The projection of the near corner never exceeds that of the far corner
(for the sign mask derived from the normal and a well-formed box). -/
theorem dot_nearPoint_le_farPoint (n emins emaxs : Vec3 ℚ)
    (hwf : boxWF emins emaxs) :
    dot n (nearPoint emins emaxs (calcSignbits n)) ≤
      dot n (farPoint emins emaxs (calcSignbits n)) := by
  rw [farPoint_calcSignbits, nearPoint_calcSignbits]
  exact add_le_add (add_le_add (sel_term_le n.x _ _ hwf.1)
    (sel_term_le n.y _ _ hwf.2.1)) (sel_term_le n.z _ _ hwf.2.2)

/-- The fast axial branch is selected for an axial plane record. -/
theorem BOX_ON_PLANE_SIDE_axial (emins emaxs : Vec3 ℚ) (t : ℕ) (d : ℚ) (s : ℕ)
    (ht : t < 3) :
    BOX_ON_PLANE_SIDE emins emaxs (axialPlane t d s) =
      boxAxialCase emins emaxs d t := by
  have h3 : ((t : ℤ) < 3) := by exact_mod_cast ht
  simp [BOX_ON_PLANE_SIDE, axialPlane, h3, Int.toNat_natCast]

/-- C2 counterexample: for the axis-aligned plane `x = 5` (type 0, normal
`(1,0,0)`, matching sign mask 0) and the box `[0,5]³` (well-formed), the fast
axial path of `BOX_ON_PLANE_SIDE` returns 2 while the general sign-mask path
returns 3: the claimed equality of the two paths fails when the box maximum
along the plane axis lies exactly on the plane. -/
theorem fast_general_disagree_at_boundary :
    BOX_ON_PLANE_SIDE ⟨0, 0, 0⟩ ⟨5, 5, 5⟩ (axialPlane 0 5 0) = 2 ∧
      boxGeneralCase ⟨0, 0, 0⟩ ⟨5, 5, 5⟩ (axialPlane 0 5 0) = 3 ∧
      boxWF ⟨0, 0, 0⟩ ⟨5, 5, 5⟩ := by
  refine ⟨by decide, ?_, by decide⟩
  norm_num [boxGeneralCase, axialPlane]

/-- C2 (amended): for an axis-aligned plane (type `t < 3`, the positive
unit-axis normal, any stored sign mask `s < 8` whose bit `t` is clear — the
masks compatible with that normal, covering all 8 dispatch branches over the
three axes) and a well-formed box, the fast axial path agrees with the
general 8-way sign-mask path except exactly when the box maximum along the
axis equals the plane distance and the box minimum is strictly behind: there
the fast path returns 2 (entirely behind) while the general path returns 3
(straddling).  In particular both return 1 / 2 / 3 for a box strictly in
front / strictly behind / straddling. -/
theorem fast_path_refines_general_path (t : ℕ) (d : ℚ) (s : ℕ)
    (emins emaxs : Vec3 ℚ) (ht : t < 3) (hs : s < 8)
    (hbit : s.testBit t = false) (hwf : boxWF emins emaxs) :
    (d ≠ emaxs.comp t →
      BOX_ON_PLANE_SIDE emins emaxs (axialPlane t d s) =
        boxGeneralCase emins emaxs (axialPlane t d s)) ∧
    (d = emaxs.comp t → emins.comp t < d →
      BOX_ON_PLANE_SIDE emins emaxs (axialPlane t d s) = 2 ∧
        boxGeneralCase emins emaxs (axialPlane t d s) = 3) := by
  have hle := hwf.comp_le t ht
  rw [BOX_ON_PLANE_SIDE_axial emins emaxs t d s ht,
    boxGeneralCase_axial t d s emins emaxs ht hs hbit]
  unfold boxAxialCase
  constructor
  · intro hne
    split_ifs <;>
      first
        | rfl
        | linarith
        | (exfalso; exact hne (le_antisymm (by linarith) (by linarith)))
  · intro he hlt
    constructor <;> split_ifs <;> first | rfl | linarith

/-- Witness for `fast_path_refines_general_path` at `t = 0`, `s = 0`,
`d = 3`, box `[0,5]³`. -/
theorem fast_path_refines_general_path_witness :
    (0 < 3 ∧ 0 < 8 ∧ Nat.testBit 0 0 = false ∧
      boxWF ⟨0, 0, 0⟩ ⟨5, 5, 5⟩) ∧
    ((3 : ℚ) ≠ (⟨5, 5, 5⟩ : Vec3 ℚ).comp 0 →
      BOX_ON_PLANE_SIDE ⟨0, 0, 0⟩ ⟨5, 5, 5⟩ (axialPlane 0 3 0) =
        boxGeneralCase ⟨0, 0, 0⟩ ⟨5, 5, 5⟩ (axialPlane 0 3 0)) ∧
    ((3 : ℚ) = (⟨5, 5, 5⟩ : Vec3 ℚ).comp 0 →
      (⟨0, 0, 0⟩ : Vec3 ℚ).comp 0 < 3 →
      BOX_ON_PLANE_SIDE ⟨0, 0, 0⟩ ⟨5, 5, 5⟩ (axialPlane 0 3 0) = 2 ∧
        boxGeneralCase ⟨0, 0, 0⟩ ⟨5, 5, 5⟩ (axialPlane 0 3 0) = 3) :=
  ⟨⟨by decide, by decide, by decide, by decide⟩,
    fast_path_refines_general_path 0 3 0 ⟨0, 0, 0⟩ ⟨5, 5, 5⟩ (by decide)
      (by decide) (by decide) (by decide)⟩

/-- C7 counterexample: the valid axial plane `x = 5` against the well-formed
box `[0,5]³`: the far corner selected by the sign mask projects onto the
normal to exactly the plane distance (so it lies "on or in front"), yet
`BOX_ON_PLANE_SIDE` returns 2, whose bit 0 is clear — the claimed
characterization of bit 0 fails on the fast axial path. -/
theorem far_corner_bit0_fails_at_boundary :
    (axialPlane 0 5 0).signbits = calcSignbits (axialPlane 0 5 0).normal ∧
      boxWF ⟨0, 0, 0⟩ ⟨5, 5, 5⟩ ∧
      dot (axialPlane 0 5 0).normal
          (farPoint ⟨0, 0, 0⟩ ⟨5, 5, 5⟩ (axialPlane 0 5 0).signbits) ≥
        (axialPlane 0 5 0).dist ∧
      BOX_ON_PLANE_SIDE ⟨0, 0, 0⟩ ⟨5, 5, 5⟩ (axialPlane 0 5 0) &&& 1 = 0 := by
  refine ⟨by norm_num [axialPlane, calcSignbits], by decide, ?_, by decide⟩
  norm_num [axialPlane, dot, farPoint]

/-- C7 (amended): for every valid plane (stored sign mask equal to the mask
derived from the normal) and well-formed box, `BOX_ON_PLANE_SIDE` returns a
value in {1, 2, 3} — the result 0 is unreachable.  On the general path
(type ≥ 3) the result is exactly bit 0 for "far corner on or in front" plus
bit 1 for "near corner strictly behind".  On the fast axial path (type
`t < 3` with the positive unit-axis normal) bit 1 is set iff the near corner
is strictly behind, and bit 0 is set iff the far corner is on or in front —
except when the box maximum along the axis lies exactly on the plane, where
bit 0 is dropped. -/
theorem box_on_plane_side_bits (p : mplane_t) (emins emaxs : Vec3 ℚ)
    (hs : p.signbits = calcSignbits p.normal) (hwf : boxWF emins emaxs) :
    (BOX_ON_PLANE_SIDE emins emaxs p = 1 ∨ BOX_ON_PLANE_SIDE emins emaxs p = 2 ∨
      BOX_ON_PLANE_SIDE emins emaxs p = 3) ∧
    (3 ≤ p.type →
      BOX_ON_PLANE_SIDE emins emaxs p =
        (if dot p.normal (farPoint emins emaxs p.signbits) ≥ p.dist then 1
          else 0) +
        (if dot p.normal (nearPoint emins emaxs p.signbits) < p.dist then 2
          else 0)) ∧
    (∀ t : ℕ, t < 3 → p.type = (t : ℤ) → p.normal = unitAxis t →
      (BOX_ON_PLANE_SIDE emins emaxs p &&& 2 ≠ 0 ↔ emins.comp t < p.dist) ∧
      (p.dist ≠ emaxs.comp t →
        (BOX_ON_PLANE_SIDE emins emaxs p &&& 1 ≠ 0 ↔ p.dist ≤ emaxs.comp t))) := by
  refine ⟨?_, ?_, ?_⟩
  · by_cases hty : p.type < 3
    · by_cases h0 : 0 ≤ p.type
      · simp only [BOX_ON_PLANE_SIDE, if_pos hty, if_pos h0, boxAxialCase]
        split_ifs <;> simp
      · simp [BOX_ON_PLANE_SIDE, hty, h0]
    · rw [show BOX_ON_PLANE_SIDE emins emaxs p = boxGeneralCase emins emaxs p
        from by simp [BOX_ON_PLANE_SIDE, hty],
        boxGeneralCase_eq_corners emins emaxs p hs, hs]
      have hnf := dot_nearPoint_le_farPoint p.normal emins emaxs hwf
      split_ifs with hF hN hN
      · right; right; rfl
      · left; rfl
      · right; left; rfl
      · exfalso; linarith
  · intro h3
    rw [show BOX_ON_PLANE_SIDE emins emaxs p = boxGeneralCase emins emaxs p
      from by simp [BOX_ON_PLANE_SIDE, not_lt.mpr h3]]
    exact boxGeneralCase_eq_corners emins emaxs p hs
  · intro t ht htype hnormal
    have hfast : BOX_ON_PLANE_SIDE emins emaxs p =
        boxAxialCase emins emaxs p.dist t := by
      have h3' : ((t : ℤ) < 3) := by exact_mod_cast ht
      simp [BOX_ON_PLANE_SIDE, htype, h3', Int.toNat_natCast]
    rw [hfast]
    unfold boxAxialCase
    constructor
    · split_ifs with h1 h2 <;> simp +decide <;> linarith
    · intro hne
      have hle := hwf.comp_le t ht
      split_ifs with h1 h2
      · simp +decide
        linarith
      · simp +decide
        exact lt_of_le_of_ne h2 fun h => hne h.symm
      · simp +decide
        linarith

/-- Witness for `box_on_plane_side_bits` at the valid general plane with
normal `(1,-1,0)` (sign mask 2), distance 1, and the box `[0,5]³`. -/
theorem box_on_plane_side_bits_witness :
    ((⟨⟨1, -1, 0⟩, 1, 3, 2⟩ : mplane_t).signbits =
        calcSignbits (⟨⟨1, -1, 0⟩, 1, 3, 2⟩ : mplane_t).normal ∧
      boxWF ⟨0, 0, 0⟩ ⟨5, 5, 5⟩) ∧
    (BOX_ON_PLANE_SIDE ⟨0, 0, 0⟩ ⟨5, 5, 5⟩ (⟨⟨1, -1, 0⟩, 1, 3, 2⟩ : mplane_t) = 1 ∨
      BOX_ON_PLANE_SIDE ⟨0, 0, 0⟩ ⟨5, 5, 5⟩ (⟨⟨1, -1, 0⟩, 1, 3, 2⟩ : mplane_t) = 2 ∨
      BOX_ON_PLANE_SIDE ⟨0, 0, 0⟩ ⟨5, 5, 5⟩ (⟨⟨1, -1, 0⟩, 1, 3, 2⟩ : mplane_t) = 3) :=
  ⟨⟨by norm_num [calcSignbits], by decide⟩,
    (box_on_plane_side_bits ⟨⟨1, -1, 0⟩, 1, 3, 2⟩ ⟨0, 0, 0⟩ ⟨5, 5, 5⟩
      (by norm_num [calcSignbits]) (by decide)).1⟩

/-! ## Brush-model loader (mod_server.ts)

JS objects linked by reference (a node's `plane` and `children` point at
entries of `mod.planes` / `mod.nodes` / `mod.leafs` resolved while loading)
are embedded by storing the raw indices read from the file; the arrays are
never mutated after construction, so `Array.prototype.indexOf` on these
distinct objects recovers exactly the stored index (or −1 for `undefined` /
an object not in the array), which is how `Mod_MakeHull0` is embedded. -/

/-- Bounds-respecting byte access: a JS `Uint8Array` read out of range gives
`undefined`, which every numeric use in the source coerces to 0. -/
def byteAt (b : Bytes) (i : ℕ) : ℕ :=
  if i < b.size then b.data i % 256 else 0

/-- `TypedArray.prototype.subarray` index clamping: negative indices count
from the end, and the result is clamped to `[0, len]`. -/
def jsClampIndex (len : ℕ) (i : ℤ) : ℕ :=
  (max 0 (min (if i < 0 then (len : ℤ) + i else i) (len : ℤ))).toNat

/-- `v.subarray(i)` (one-argument form: to the end of the array). -/
def jsSubarrayFrom (v : List ℕ) (i : ℤ) : List ℕ :=
  v.drop (jsClampIndex v.length i)

/-- The `DataView(buffer, fileofs, filelen)` constructor throws a
`RangeError` (an uncaught fatal error) unless `0 ≤ fileofs`, `0 ≤ filelen`
and `fileofs + filelen ≤ buffer.byteLength`. -/
def lumpInBounds (b : Bytes) (fileofs filelen : ℤ) : Prop :=
  0 ≤ fileofs ∧ 0 ≤ filelen ∧ fileofs + filelen ≤ (b.size : ℤ)

instance (b : Bytes) (fileofs filelen : ℤ) :
    Decidable (lumpInBounds b fileofs filelen) := by
  unfold lumpInBounds; infer_instance

-- Model type tags.
def mod_brush : ℕ := 0
def mod_sprite : ℕ := 1
def mod_alias : ℕ := 2

/-- `mclipnode_t`: a plane index and two child slots (negative = contents). -/
structure mclipnode_t where
  planenum : ℤ
  children : Fin 2 → ℤ

/-- `hull_t`.  `clipnodes` and `planes` are nullable references. -/
structure hull_t where
  clipnodes : Option (List mclipnode_t) := none
  planes : Option (List mplane_t) := none
  firstclipnode : ℤ := 0
  lastclipnode : ℤ := 0
  clip_mins : Vec3 ℚ := ⟨0, 0, 0⟩
  clip_maxs : Vec3 ℚ := ⟨0, 0, 0⟩

/-- `mleaf_t` as built by `Mod_LoadLeafs`.  `parent` is a node index set by
`Mod_SetParent`.  (The per-frame fields `visframe`/`key`/`efrags`, which the
loader leaves at their defaults and never touches, are omitted.) -/
structure mleaf_t where
  contents : ℤ
  compressed_vis : Option (List ℕ)
  mins : Vec3 ℚ
  maxs : Vec3 ℚ
  firstmarksurface : ℕ
  nummarksurfaces : ℕ
  ambient_sound_level : Fin 4 → ℕ
  parent : Option ℕ := none

/-- `mnode_t` as built by `Mod_LoadNodes`.  `planenum` and `children` hold
the raw file indices whose object resolutions (`mod.planes[planenum]`,
`mod.nodes[child]` / `mod.leafs[~child]`) the source stores; `contents` of a
node is initialized to 0 by the class and never assigned. -/
structure mnode_t where
  planenum : ℤ
  children : Fin 2 → ℤ
  mins : Vec3 ℚ
  maxs : Vec3 ℚ
  firstsurface : ℕ
  numsurfaces : ℕ
  parent : Option ℕ := none

/-- `dmodel_t` (submodel record). -/
structure dmodel_t where
  mins : Vec3 ℚ
  maxs : Vec3 ℚ
  origin : Vec3 ℚ
  headnode : Fin 4 → ℤ
  visleafs : ℤ
  firstface : ℤ
  numfaces : ℤ

/-- `model_t` — the aggregate model record.  Fields the examined loader
neither reads nor writes (`needload`, `numframes`, `synctype`, `flags`,
`radius`, `firstmodelsurface`, `nummodelsurfaces`) are omitted. -/
structure model_t where
  name : String := ""
  type : ℕ := mod_brush
  mins : Vec3 ℚ := ⟨0, 0, 0⟩
  maxs : Vec3 ℚ := ⟨0, 0, 0⟩
  numsubmodels : ℕ := 0
  submodels : List dmodel_t := []
  numplanes : ℕ := 0
  planes : List mplane_t := []
  numleafs : ℕ := 0
  leafs : List mleaf_t := []
  numvertexes : ℕ := 0
  vertexes : Option (List ℚ) := none
  numclipnodes : ℕ := 0
  clipnodes : List mclipnode_t := []
  numnodes : ℕ := 0
  nodes : List mnode_t := []
  hulls : List hull_t := []
  entities : List ℕ := []
  visdata : Option (List ℕ) := none
  loaded : Bool := false

/-- A fresh `model_t` as allocated by `Mod_Init`. -/
def newModel : model_t := {}

/-- `Mod_LoadPlanes`: `count = Math.floor(filelen / 20)` records of 20 bytes
each; a remainder is silently dropped.  Every in-loop `DataView` read lies
inside the window `[fileofs, fileofs + filelen)`, so only the `DataView`
constructor can fail. -/
def Mod_LoadPlanes (g32 : (ℕ → ℕ) → ℕ → ℚ) (b : Bytes) (fileofs filelen : ℤ) :
    Except String (List mplane_t) :=
  if lumpInBounds b fileofs filelen then
    let base := fileofs.toNat
    let count := filelen.toNat / 20
    Except.ok <| (List.range count).map fun i =>
      let off := base + i * 20
      let n : Vec3 ℚ := ⟨g32 (byteAt b) off, g32 (byteAt b) (off + 4),
                         g32 (byteAt b) (off + 8)⟩
      { normal := n
        dist := g32 (byteAt b) (off + 12)
        type := getInt32 (byteAt b) (off + 16)
        signbits := calcSignbits n }
  else Except.error "RangeError: Invalid DataView bounds"

/-- `Mod_LoadVertexes`: 12-byte records, flattened `[numvertexes * 3]`
coordinate list; returns `(count, coordinates)`. -/
def Mod_LoadVertexes (g32 : (ℕ → ℕ) → ℕ → ℚ) (b : Bytes)
    (fileofs filelen : ℤ) : Except String (ℕ × List ℚ) :=
  if lumpInBounds b fileofs filelen then
    let base := fileofs.toNat
    let count := filelen.toNat / 12
    Except.ok (count, (List.range count).flatMap fun i =>
      let off := base + i * 12
      [g32 (byteAt b) off, g32 (byteAt b) (off + 4), g32 (byteAt b) (off + 8)])
  else Except.error "RangeError: Invalid DataView bounds"

/-- `Mod_LoadVisibility`: a zero-length region leaves `visdata` null;
otherwise the bytes are copied through `subarray` (which clamps) into a
fresh zero-filled `Uint8Array(filelen)` (which throws on a negative
length). -/
def Mod_LoadVisibility (b : Bytes) (fileofs filelen : ℤ) :
    Except String (Option (List ℕ)) :=
  if filelen = 0 then Except.ok none
  else if filelen < 0 then Except.error "RangeError: Invalid typed array length"
  else
    let lo := jsClampIndex b.size fileofs
    let hi := jsClampIndex b.size (fileofs + filelen)
    let src := (List.range (hi - lo)).map fun k => byteAt b (lo + k)
    Except.ok (some (src ++ List.replicate (filelen.toNat - src.length) 0))

/-- `Mod_LoadLeafs`: 28-byte records; `compressed_vis` is set only when the
stored visibility offset is not −1 **and** `mod.visdata` is non-null; the
ambient-sound bytes are read from `mod_base` directly (unchecked access). -/
def Mod_LoadLeafs (b : Bytes) (fileofs filelen : ℤ)
    (visdata : Option (List ℕ)) : Except String (List mleaf_t) :=
  if lumpInBounds b fileofs filelen then
    let base := fileofs.toNat
    let count := filelen.toNat / 28
    Except.ok <| (List.range count).map fun i =>
      let off := base + i * 28
      let visofs := getInt32 (byteAt b) (off + 4)
      { contents := getInt32 (byteAt b) off
        compressed_vis :=
          if visofs ≠ -1 then
            match visdata with
            | some vd => some (jsSubarrayFrom vd visofs)
            | none => none
          else none
        mins := ⟨(getInt16 (byteAt b) (off + 8) : ℚ),
                 (getInt16 (byteAt b) (off + 10) : ℚ),
                 (getInt16 (byteAt b) (off + 12) : ℚ)⟩
        maxs := ⟨(getInt16 (byteAt b) (off + 14) : ℚ),
                 (getInt16 (byteAt b) (off + 16) : ℚ),
                 (getInt16 (byteAt b) (off + 18) : ℚ)⟩
        firstmarksurface := getUint16 (byteAt b) (off + 20)
        nummarksurfaces := getUint16 (byteAt b) (off + 22)
        ambient_sound_level := fun j => byteAt b (off + 24 + (j : ℕ))
        parent := none }
  else Except.error "RangeError: Invalid DataView bounds"

/-- `Mod_SetParent`: recursive back-link pass.  `fuel` bounds the recursion
depth; the source recursion would overflow the JS call stack (a fatal
`RangeError`) on a cyclic child graph, which is what fuel exhaustion embeds.
A leaf object with `contents ≥ 0` falls into the node branch of the source,
which dereferences its nonexistent `children` array — a fatal `TypeError`. -/
def Mod_SetParent (nodes : List mnode_t) (leafs : List mleaf_t) :
    ℕ → Bool → ℕ → Option ℕ → Except String (List mnode_t × List mleaf_t)
  | 0, _, _, _ => Except.error "RangeError: Maximum call stack size exceeded"
  | _ + 1, true, idx, parent =>
    -- child resolved into mod.leafs; out of range ⇒ undefined ⇒ early return
    match leafs[idx]? with
    | none => Except.ok (nodes, leafs)
    | some l =>
      if l.contents < 0 then
        Except.ok (nodes, leafs.set idx { l with parent := parent })
      else
        -- node branch taken on a leaf object: `n.children[0]` throws
        Except.error "TypeError: Cannot read properties of undefined"
  | fuel + 1, false, idx, parent =>
    match nodes[idx]? with
    | none => Except.ok (nodes, leafs)
    | some n => do
      let nodes1 := nodes.set idx { n with parent := parent }
      let c0 := n.children 0
      let (nodes2, leafs2) ←
        Mod_SetParent nodes1 leafs fuel (decide (c0 < 0))
          (if c0 < 0 then (-(c0 + 1)).toNat else c0.toNat) (some idx)
      let c1 := n.children 1
      Mod_SetParent nodes2 leafs2 fuel (decide (c1 < 0))
        (if c1 < 0 then (-(c1 + 1)).toNat else c1.toNat) (some idx)

/-- `Mod_LoadNodes`: 24-byte records in two passes, then the
`Mod_SetParent(mod.nodes[0], null)` back-link pass (a no-op when there is no
node 0). -/
def Mod_LoadNodes (b : Bytes) (fileofs filelen : ℤ) (leafs : List mleaf_t) :
    Except String (List mnode_t × List mleaf_t) :=
  if lumpInBounds b fileofs filelen then
    let base := fileofs.toNat
    let count := filelen.toNat / 24
    let nodes : List mnode_t := (List.range count).map fun i =>
      let off := base + i * 24
      { planenum := getInt32 (byteAt b) off
        children := fun j => getInt16 (byteAt b) (off + 4 + 2 * (j : ℕ))
        mins := ⟨(getInt16 (byteAt b) (off + 8) : ℚ),
                 (getInt16 (byteAt b) (off + 10) : ℚ),
                 (getInt16 (byteAt b) (off + 12) : ℚ)⟩
        maxs := ⟨(getInt16 (byteAt b) (off + 14) : ℚ),
                 (getInt16 (byteAt b) (off + 16) : ℚ),
                 (getInt16 (byteAt b) (off + 18) : ℚ)⟩
        firstsurface := getUint16 (byteAt b) (off + 20)
        numsurfaces := getUint16 (byteAt b) (off + 22)
        parent := none }
    if count = 0 then Except.ok (nodes, leafs)
    else Mod_SetParent nodes leafs (nodes.length + 2) false 0 none
  else Except.error "RangeError: Invalid DataView bounds"

/-- `Mod_LoadClipnodes`: 8-byte records, plus construction of the four hull
slots; hulls 1 and 2 share the loaded clipnode list and the plane table and
get the fixed player box extents. -/
def Mod_LoadClipnodes (b : Bytes) (fileofs filelen : ℤ)
    (planes : List mplane_t) : Except String (List mclipnode_t × List hull_t) :=
  if lumpInBounds b fileofs filelen then
    let base := fileofs.toNat
    let count := filelen.toNat / 8
    let clipnodes : List mclipnode_t := (List.range count).map fun i =>
      let off := base + i * 8
      { planenum := getInt32 (byteAt b) off
        children := fun j => getInt16 (byteAt b) (off + 4 + 2 * (j : ℕ)) }
    let hull1 : hull_t :=
      { clipnodes := some clipnodes, planes := some planes
        clip_mins := ⟨-16, -16, -24⟩, clip_maxs := ⟨16, 16, 32⟩ }
    let hull2 : hull_t :=
      { clipnodes := some clipnodes, planes := some planes
        clip_mins := ⟨-32, -32, -24⟩, clip_maxs := ⟨32, 32, 64⟩ }
    Except.ok (clipnodes, [{}, hull1, hull2, {}])
  else Except.error "RangeError: Invalid DataView bounds"

/-- `Mod_LoadEntities`: character codes `mod_base[fileofs + i]` for
`i < filelen - 1` (the terminating NUL is skipped); a zero-length region
yields the empty string, and no bounds are checked (`undefined` reads become
NUL characters). -/
def Mod_LoadEntities (b : Bytes) (fileofs filelen : ℤ) : List ℕ :=
  if filelen = 0 then []
  else (List.range (filelen - 1).toNat).map fun i =>
    if 0 ≤ fileofs + (i : ℤ) then byteAt b (fileofs + (i : ℤ)).toNat else 0

/-- `Mod_LoadSubmodels`: 64-byte records. -/
def Mod_LoadSubmodels (g32 : (ℕ → ℕ) → ℕ → ℚ) (b : Bytes)
    (fileofs filelen : ℤ) : Except String (List dmodel_t) :=
  if lumpInBounds b fileofs filelen then
    let base := fileofs.toNat
    let count := filelen.toNat / 64
    Except.ok <| (List.range count).map fun i =>
      let off := base + i * 64
      { mins := ⟨g32 (byteAt b) off, g32 (byteAt b) (off + 4),
                 g32 (byteAt b) (off + 8)⟩
        maxs := ⟨g32 (byteAt b) (off + 12), g32 (byteAt b) (off + 16),
                 g32 (byteAt b) (off + 20)⟩
        origin := ⟨g32 (byteAt b) (off + 24), g32 (byteAt b) (off + 28),
                   g32 (byteAt b) (off + 32)⟩
        headnode := fun j => getInt32 (byteAt b) (off + 36 + 4 * (j : ℕ))
        visleafs := getInt32 (byteAt b) (off + 52)
        firstface := getInt32 (byteAt b) (off + 56)
        numfaces := getInt32 (byteAt b) (off + 60) }
  else Except.error "RangeError: Invalid DataView bounds"

/-- The child value `Mod_MakeHull0` writes for a raw child index: the
resolved child object is a node (`contents` 0) when the raw index is a valid
node index — `indexOf` then returns that index; a leaf when negative with
`~raw` in range — its `contents` is used when negative, otherwise the leaf
object is not found in `mod.nodes` and `indexOf` yields −1; and `undefined`
(⇒ `CONTENTS_SOLID`) when out of range. -/
def hull0Child (mod : model_t) (raw : ℤ) : ℤ :=
  if 0 ≤ raw then
    if raw.toNat < mod.nodes.length then raw else CONTENTS_SOLID
  else
    let li := (-(raw + 1)).toNat
    match mod.leafs[li]? with
    | some l => if l.contents < 0 then l.contents else -1
    | none => CONTENTS_SOLID

/-- `Mod_MakeHull0`: synthesize hull 0 from the node array — one clipnode
per node, the plane index recovered by `indexOf` on the plane table
(= the stored `planenum` when in range, else −1 for `undefined`). -/
def Mod_MakeHull0 (mod : model_t) : model_t :=
  let clipnodes : List mclipnode_t := (List.range mod.numnodes).map fun i =>
    let node := mod.nodes.getD i
      { planenum := 0, children := (fun _ => 0), mins := ⟨0, 0, 0⟩,
        maxs := ⟨0, 0, 0⟩, firstsurface := 0, numsurfaces := 0 }
    { planenum :=
        if 0 ≤ node.planenum ∧ node.planenum.toNat < mod.planes.length then
          node.planenum
        else -1
      children := fun j => hull0Child mod (node.children j) }
  let hull : hull_t :=
    { clipnodes := some clipnodes
      planes := some mod.planes
      firstclipnode := 0
      lastclipnode := (mod.numnodes : ℤ) - 1 }
  { mod with hulls := mod.hulls.set 0 hull }

/-- `Mod_LoadBrushModel`: version check, 15-entry lump directory (reads at
byte offsets 4..123), the region loaders in source order, hull-0 synthesis,
and the model bounds copied from submodel 0. -/
def Mod_LoadBrushModel (g32 : (ℕ → ℕ) → ℕ → ℚ) (mod : model_t) (b : Bytes) :
    Except String model_t := do
  if b.size < 4 then throw "RangeError: Offset is outside the bounds"
  if getInt32 (byteAt b) 0 ≠ BSPVERSION then
    throw ("Mod_LoadBrushModel: " ++ mod.name ++ " has wrong version")
  if b.size < 124 then throw "RangeError: Offset is outside the bounds"
  let lumpofs : ℕ → ℤ := fun i => getInt32 (byteAt b) (4 + i * 8)
  let lumplen : ℕ → ℤ := fun i => getInt32 (byteAt b) (8 + i * 8)
  let planes ← Mod_LoadPlanes g32 b (lumpofs 1) (lumplen 1)
  let verts ← Mod_LoadVertexes g32 b (lumpofs 3) (lumplen 3)
  let visdata ← Mod_LoadVisibility b (lumpofs 4) (lumplen 4)
  let leafs ← Mod_LoadLeafs b (lumpofs 10) (lumplen 10) visdata
  let nl ← Mod_LoadNodes b (lumpofs 5) (lumplen 5) leafs
  let ch ← Mod_LoadClipnodes b (lumpofs 9) (lumplen 9) planes
  let entities := Mod_LoadEntities b (lumpofs 0) (lumplen 0)
  let submodels ← Mod_LoadSubmodels g32 b (lumpofs 14) (lumplen 14)
  let base : model_t :=
    { mod with
      type := mod_brush
      planes := planes, numplanes := planes.length
      numvertexes := verts.1, vertexes := some verts.2
      visdata := visdata
      leafs := nl.2, numleafs := nl.2.length
      nodes := nl.1, numnodes := nl.1.length
      clipnodes := ch.1, numclipnodes := ch.1.length
      hulls := ch.2
      entities := entities
      submodels := submodels, numsubmodels := submodels.length }
  let m2 := Mod_MakeHull0 base
  match submodels.head? with
  | some s0 => pure { m2 with mins := s0.mins, maxs := s0.maxs }
  | none => pure m2

/-- The linear search loop of `Mod_FindName`: the index of the first
registry entry with the given name. -/
def findNameIdx : List model_t → String → Option ℕ
  | [], _ => none
  | m :: rest, name =>
    if m.name = name then some 0 else (findNameIdx rest name).map (· + 1)

/-- `Mod_FindName`: linear search of the used registry prefix, else claim
the next slot (`Sys_Error` on an empty name or a full registry). -/
def Mod_FindName (known : List model_t) (name : String) :
    Except String (List model_t × ℕ) :=
  if name = "" then Except.error "Mod_FindName: NULL name"
  else
    match findNameIdx known name with
    | some i => Except.ok (known, i)
    | none =>
      if known.length ≥ MAX_MOD_KNOWN then
        Except.error "mod_numknown >= MAX_MOD_KNOWN"
      else Except.ok (known ++ [{ newModel with name := name }], known.length)

/-- `Mod_LoadModel`: the loaded flag short-circuits; otherwise the byte
source is consulted (the last component of the result counts those calls),
the magic number routes brush files through the full parser, and any other
file is only tagged by extension; success marks the slot loaded. -/
def Mod_LoadModel (g32 : (ℕ → ℕ) → ℕ → ℚ) (oracle : String → Option Bytes)
    (known : List model_t) (idx : ℕ) (crash : Bool) :
    Except String (List model_t × Option ℕ × ℕ) :=
  let mod := known.getD idx newModel
  if mod.loaded then Except.ok (known, some idx, 0)
  else
    match oracle mod.name with
    | none =>
      if crash then Except.error ("Mod_LoadModel: " ++ mod.name ++ " not found")
      else Except.ok (known, none, 1)
    | some buf =>
      if buf.size < 4 then Except.error "RangeError: Offset is outside the bounds"
      else if getInt32 (byteAt buf) 0 = BSPVERSION then
        match Mod_LoadBrushModel g32 mod buf with
        | Except.error e => Except.error e
        | Except.ok mod2 =>
          Except.ok (known.set idx { mod2 with loaded := true }, some idx, 1)
      else
        Except.ok (known.set idx
          { mod with
            type := if mod.name.endsWith ".spr" then mod_sprite else mod_alias
            loaded := true }, some idx, 1)

/-- `Mod_ForName`: find-or-create the slot, then load. -/
def Mod_ForName (g32 : (ℕ → ℕ) → ℕ → ℚ) (oracle : String → Option Bytes)
    (known : List model_t) (name : String) (crash : Bool) :
    Except String (List model_t × Option ℕ × ℕ) := do
  let fi ← Mod_FindName known name
  Mod_LoadModel g32 oracle fi.1 fi.2 crash

/-- An all-zero byte buffer of a given size, used as a concrete fixture. -/
def zeroBytes (n : ℕ) : Bytes := ⟨n, fun _ => 0⟩

/-- A trivial float decode used to instantiate the abstract `g32`. -/
def qZero : (ℕ → ℕ) → ℕ → ℚ := fun _ _ => 0

/-- `Mod_SetParent` only rewrites `parent` fields in place: the node and
leaf table lengths are unchanged on success. -/
theorem Mod_SetParent_lengths :
    ∀ (fuel : ℕ) (isLeaf : Bool) (idx : ℕ) (parent : Option ℕ)
      (nodes : List mnode_t) (leafs : List mleaf_t) r,
      Mod_SetParent nodes leafs fuel isLeaf idx parent = Except.ok r →
      r.1.length = nodes.length ∧ r.2.length = leafs.length := by
  intro fuel
  induction fuel with
  | zero =>
    intro isLeaf idx parent nodes leafs r h
    simp [Mod_SetParent] at h
  | succ n ih =>
    intro isLeaf idx parent nodes leafs r h
    cases isLeaf with
    | true =>
      simp only [Mod_SetParent] at h
      split at h
      · obtain rfl := (Except.ok.injEq _ _).mp h
        exact ⟨rfl, rfl⟩
      · split at h
        · obtain rfl := (Except.ok.injEq _ _).mp h
          simp
        · exact absurd h (by simp)
    | false =>
      simp only [Mod_SetParent, bind, Except.bind] at h
      split at h
      · obtain rfl := (Except.ok.injEq _ _).mp h
        exact ⟨rfl, rfl⟩
      · split at h
        · exact absurd h (by simp)
        · rename_i n1 r1 hrec1
          obtain ⟨h1a, h1b⟩ := ih _ _ _ _ _ _ hrec1
          obtain ⟨h2a, h2b⟩ := ih _ _ _ _ _ _ h
          simp_all

/-- C1 (amended): every region loader derives its record count as
`Math.floor(regionLength / recordSize)` and decodes exactly that many
records — a region length that is not an exact multiple of the record size
is silently truncated, and no `BoundsError` is raised; the only fatal
condition is the `DataView` constructor itself (region outside the
buffer). -/
theorem region_counts_are_floored (g32 : (ℕ → ℕ) → ℕ → ℚ) (b : Bytes)
    (fileofs filelen : ℤ) (planes : List mplane_t)
    (visdata : Option (List ℕ)) (leafs : List mleaf_t)
    (h : lumpInBounds b fileofs filelen) :
    (Mod_LoadPlanes g32 b fileofs filelen).toOption.map List.length =
        some (filelen.toNat / 20) ∧
    (Mod_LoadVertexes g32 b fileofs filelen).toOption.map Prod.fst =
        some (filelen.toNat / 12) ∧
    (Mod_LoadLeafs b fileofs filelen visdata).toOption.map List.length =
        some (filelen.toNat / 28) ∧
    (∀ r, Mod_LoadNodes b fileofs filelen leafs = Except.ok r →
        r.1.length = filelen.toNat / 24) ∧
    (Mod_LoadClipnodes b fileofs filelen planes).toOption.map
        (fun x => x.1.length) = some (filelen.toNat / 8) ∧
    (Mod_LoadSubmodels g32 b fileofs filelen).toOption.map List.length =
        some (filelen.toNat / 64) := by
  refine ⟨?_, ?_, ?_, ?_, ?_, ?_⟩
  · simp only [Mod_LoadPlanes, if_pos h]
    simp [Except.toOption]
  · simp only [Mod_LoadVertexes, if_pos h]
    simp [Except.toOption]
  · simp only [Mod_LoadLeafs, if_pos h]
    simp [Except.toOption]
  · intro r hr
    simp only [Mod_LoadNodes, if_pos h] at hr
    split at hr
    · obtain rfl := (Except.ok.injEq _ _).mp hr
      simp
    · obtain ⟨h1, _⟩ := Mod_SetParent_lengths _ _ _ _ _ _ _ hr
      simpa using h1
  · simp only [Mod_LoadClipnodes, if_pos h]
    simp [Except.toOption]
  · simp only [Mod_LoadSubmodels, if_pos h]
    simp [Except.toOption]

/-- Witness for `region_counts_are_floored` on a 21-byte region of an
all-zero buffer. -/
theorem region_counts_are_floored_witness :
    lumpInBounds (zeroBytes 21) 0 21 ∧
    ((Mod_LoadPlanes qZero (zeroBytes 21) 0 21).toOption.map List.length =
        some ((21 : ℤ).toNat / 20) ∧
    (Mod_LoadVertexes qZero (zeroBytes 21) 0 21).toOption.map Prod.fst =
        some ((21 : ℤ).toNat / 12) ∧
    (Mod_LoadLeafs (zeroBytes 21) 0 21 none).toOption.map List.length =
        some ((21 : ℤ).toNat / 28) ∧
    (∀ r, Mod_LoadNodes (zeroBytes 21) 0 21 [] = Except.ok r →
        r.1.length = (21 : ℤ).toNat / 24) ∧
    (Mod_LoadClipnodes (zeroBytes 21) 0 21 []).toOption.map
        (fun x => x.1.length) = some ((21 : ℤ).toNat / 8) ∧
    (Mod_LoadSubmodels qZero (zeroBytes 21) 0 21).toOption.map List.length =
        some ((21 : ℤ).toNat / 64)) :=
  ⟨by decide, region_counts_are_floored qZero (zeroBytes 21) 0 21 [] none []
    (by decide)⟩

/-- C1 counterexample: a planes region of 21 bytes (not a multiple of the
20-byte record size, inside the buffer) does not fail with any error —
`Mod_LoadPlanes` silently truncates and decodes exactly one plane. -/
theorem mod_LoadPlanes_silently_truncates :
    (Mod_LoadPlanes qZero (zeroBytes 21) 0 21).toOption.map List.length =
        some 1 ∧ (21 : ℤ) % 20 ≠ 0 := by
  refine ⟨?_, by decide⟩
  simp [Mod_LoadPlanes, lumpInBounds, zeroBytes, Except.toOption]

/-- C3 (amended): `Mod_LoadLeafs` enforces no limit: it populates
`floor(filelen / 28)` leafs even when that count exceeds
`MAX_MAP_LEAFS = 8192` (the constant is declared but never consulted), and
the loader has no plane maximum at all; the load succeeds normally. -/
theorem mod_LoadLeafs_no_limit (b : Bytes) (fileofs filelen : ℤ)
    (visdata : Option (List ℕ)) (h : lumpInBounds b fileofs filelen)
    (hover : MAX_MAP_LEAFS < filelen.toNat / 28) :
    (Mod_LoadLeafs b fileofs filelen visdata).toOption.map List.length =
      some (filelen.toNat / 28) := by
  simp only [Mod_LoadLeafs, if_pos h]
  simp [Except.toOption]

/-- Witness for `mod_LoadLeafs_no_limit` on a 229404-byte leaf region
(8193 records). -/
theorem mod_LoadLeafs_no_limit_witness :
    (lumpInBounds (zeroBytes 229404) 0 229404 ∧
      MAX_MAP_LEAFS < (229404 : ℤ).toNat / 28) ∧
    (Mod_LoadLeafs (zeroBytes 229404) 0 229404 none).toOption.map
        List.length = some ((229404 : ℤ).toNat / 28) :=
  ⟨⟨by decide, by decide⟩,
    mod_LoadLeafs_no_limit (zeroBytes 229404) 0 229404 none (by decide)
      (by decide)⟩

/-- C3 counterexample: a leaf region of 28 × 8193 bytes loads successfully
with 8193 leafs — exceeding `MAX_MAP_LEAFS = 8192` is not an error. -/
theorem mod_LoadLeafs_exceeds_limit_without_error :
    (Mod_LoadLeafs (zeroBytes 229404) 0 229404 none).toOption.map
        List.length = some 8193 ∧ MAX_MAP_LEAFS < 8193 := by
  refine ⟨?_, by decide⟩
  simp [Mod_LoadLeafs, lumpInBounds, zeroBytes, Except.toOption]

/-- C9: a loaded leaf's `compressed_vis` is non-null exactly when its stored
visibility offset is not −1 **and** the model's visibility blob is non-null;
in particular with a null blob every leaf has `compressed_vis = none`, and a
zero-length visibility region produces the null blob. -/
theorem leaf_vis_requires_offset_and_visdata (b : Bytes) (fileofs filelen : ℤ)
    (visdata : Option (List ℕ)) (l : List mleaf_t)
    (hok : Mod_LoadLeafs b fileofs filelen visdata = Except.ok l) (i : ℕ)
    (leaf : mleaf_t) (hleaf : l[i]? = some leaf) :
    ((leaf.compressed_vis).isSome ↔
      getInt32 (byteAt b) (fileofs.toNat + i * 28 + 4) ≠ -1 ∧ visdata.isSome) ∧
    (visdata = none → leaf.compressed_vis = none) ∧
    Mod_LoadVisibility b fileofs 0 = Except.ok none := by
  refine ?_
  unfold Mod_LoadLeafs at hok
  split at hok
  · obtain rfl := (Except.ok.injEq _ _).mp hok
    rw [List.getElem?_map] at hleaf
    rcases Nat.lt_or_ge i (filelen.toNat / 28) with hi | hi
    · rw [List.getElem?_range hi] at hleaf
      simp only [Option.map_some] at hleaf
      obtain rfl : _ = leaf := (Option.some.injEq _ _).mp hleaf
      refine ⟨?_, ?_, by simp [Mod_LoadVisibility]⟩
      · cases visdata <;> dsimp only <;> split_ifs <;> simp_all
      · rintro rfl; dsimp only; split_ifs <;> simp
    · rw [List.getElem?_eq_none (by simpa using hi)] at hleaf
      simp at hleaf
  · exact absurd hok (by simp)

/-- Witness for `leaf_vis_requires_offset_and_visdata` on a single all-zero
28-byte leaf record with a null visibility blob. -/
theorem leaf_vis_requires_offset_and_visdata_witness :
    (Mod_LoadLeafs (zeroBytes 28) 0 28 none =
        Except.ok [⟨0, none, ⟨0, 0, 0⟩, ⟨0, 0, 0⟩, 0, 0,
          (fun j => byteAt (zeroBytes 28) (0 + 0 * 28 + 24 + (j : ℕ))), none⟩] ∧
      ([⟨0, none, ⟨0, 0, 0⟩, ⟨0, 0, 0⟩, 0, 0,
          (fun j => byteAt (zeroBytes 28) (0 + 0 * 28 + 24 + (j : ℕ))),
          none⟩] : List mleaf_t)[0]? =
        some ⟨0, none, ⟨0, 0, 0⟩, ⟨0, 0, 0⟩, 0, 0,
          (fun j => byteAt (zeroBytes 28) (0 + 0 * 28 + 24 + (j : ℕ))), none⟩) ∧
    (((⟨0, none, ⟨0, 0, 0⟩, ⟨0, 0, 0⟩, 0, 0,
          (fun j => byteAt (zeroBytes 28) (0 + 0 * 28 + 24 + (j : ℕ))),
          none⟩ : mleaf_t).compressed_vis).isSome ↔
        getInt32 (byteAt (zeroBytes 28)) ((0 : ℤ).toNat + 0 * 28 + 4) ≠ -1 ∧
          (none : Option (List ℕ)).isSome) ∧
    ((none : Option (List ℕ)) = none →
      (⟨0, none, ⟨0, 0, 0⟩, ⟨0, 0, 0⟩, 0, 0,
          (fun j => byteAt (zeroBytes 28) (0 + 0 * 28 + 24 + (j : ℕ))),
          none⟩ : mleaf_t).compressed_vis = none) ∧
    Mod_LoadVisibility (zeroBytes 28) 0 0 = Except.ok none := by
  have h1 : Mod_LoadLeafs (zeroBytes 28) 0 28 none =
      Except.ok [⟨0, none, ⟨0, 0, 0⟩, ⟨0, 0, 0⟩, 0, 0,
        (fun j => byteAt (zeroBytes 28) (0 + 0 * 28 + 24 + (j : ℕ))), none⟩] := by
    simp [Mod_LoadLeafs, lumpInBounds, zeroBytes, List.range_succ, getInt32,
      getUint32, getInt16, getUint16, byteAt]
  exact ⟨⟨h1, rfl⟩,
    leaf_vis_requires_offset_and_visdata (zeroBytes 28) 0 28 none _ h1 0 _ rfl⟩

/-- C4: after `Mod_MakeHull0`, hull 0 has exactly one clipnode per node;
clipnode `i` carries the plane index of node `i` (when the node's plane is
in the plane table), and each child slot is the child's node index when the
child is a node, the child leaf's content code when it is a leaf with
negative contents, and `CONTENTS_SOLID` when the child is absent (out of
range, i.e. `undefined` in the source). -/
theorem makeHull0_isomorphic (mod : model_t)
    (hnum : mod.numnodes = mod.nodes.length) (hhulls : mod.hulls ≠ [])
    (cns : List mclipnode_t)
    (hcns : ((Mod_MakeHull0 mod).hulls.getD 0 {}).clipnodes = some cns) :
    cns.length = mod.nodes.length ∧
    ∀ (i : ℕ) (nd : mnode_t) (cn : mclipnode_t),
      mod.nodes[i]? = some nd → cns[i]? = some cn →
      ((0 ≤ nd.planenum → nd.planenum.toNat < mod.planes.length →
        cn.planenum = nd.planenum) ∧
      ∀ j : Fin 2,
        (0 ≤ nd.children j → (nd.children j).toNat < mod.nodes.length →
          cn.children j = nd.children j) ∧
        (∀ l, nd.children j < 0 →
          mod.leafs[(-(nd.children j + 1)).toNat]? = some l →
          l.contents < 0 → cn.children j = l.contents) ∧
        ((0 ≤ nd.children j ∧ mod.nodes.length ≤ (nd.children j).toNat) ∨
            (nd.children j < 0 ∧
              mod.leafs[(-(nd.children j + 1)).toNat]? = none) →
          cn.children j = CONTENTS_SOLID)) := by
  have hset : (Mod_MakeHull0 mod).hulls.getD 0 {} =
      { clipnodes := some ((List.range mod.numnodes).map fun i =>
          let node := mod.nodes.getD i
            { planenum := 0, children := (fun _ => 0), mins := ⟨0, 0, 0⟩,
              maxs := ⟨0, 0, 0⟩, firstsurface := 0, numsurfaces := 0 }
          { planenum :=
              if 0 ≤ node.planenum ∧ node.planenum.toNat < mod.planes.length
              then node.planenum else -1
            children := fun j => hull0Child mod (node.children j) })
        planes := some mod.planes
        firstclipnode := 0
        lastclipnode := (mod.numnodes : ℤ) - 1 } := by
    cases h : mod.hulls with
    | nil => exact absurd h hhulls
    | cons a t => simp [Mod_MakeHull0, h]
  rw [hset] at hcns
  obtain rfl := (Option.some.injEq _ _).mp hcns
  constructor
  · simp [hnum]
  · intro i nd cn hnd hcn
    have hilt : i < mod.nodes.length := (List.getElem?_eq_some_iff.mp hnd).1
    rw [List.getElem?_map] at hcn
    rw [List.getElem?_range (by omega : i < mod.numnodes)] at hcn
    simp only [Option.map_some] at hcn
    obtain rfl : _ = cn := (Option.some.injEq _ _).mp hcn
    have hgetD : mod.nodes.getD i
        { planenum := 0, children := (fun _ => 0), mins := ⟨0, 0, 0⟩,
          maxs := ⟨0, 0, 0⟩, firstsurface := 0, numsurfaces := 0 } = nd := by
      simp [List.getD, hnd]
    refine ⟨?_, ?_⟩
    · intro h1 h2
      dsimp only
      rw [hgetD, if_pos ⟨h1, h2⟩]
    · intro j
      refine ⟨?_, ?_, ?_⟩
      · intro h1 h2
        dsimp only
        rw [hgetD]
        simp [hull0Child, h1, h2]
      · intro l h1 h2 h3
        dsimp only
        rw [hgetD]
        simp only [hull0Child, if_neg (by omega : ¬ 0 ≤ nd.children j), h2]
        exact if_pos h3
      · rintro (⟨h1, h2⟩ | ⟨h1, h2⟩)
        · dsimp only
          rw [hgetD]
          simp [hull0Child, h1]
          omega
        · dsimp only
          rw [hgetD]
          simp only [hull0Child, if_neg (by omega : ¬ 0 ≤ nd.children j), h2]

/-- A concrete one-node model used to witness `makeHull0_isomorphic`:
node 0's front child is leaf 0 (contents `EMPTY`) and its back child is
node 0 itself. -/
def c4mod : model_t :=
  { newModel with
    numnodes := 1
    nodes := [{ planenum := 0
                children := (fun j => if j = 0 then -1 else 0)
                mins := ⟨0, 0, 0⟩, maxs := ⟨0, 0, 0⟩
                firstsurface := 0, numsurfaces := 0 }]
    planes := [axialPlane 0 0 0]
    leafs := [{ contents := CONTENTS_EMPTY, compressed_vis := none
                mins := ⟨0, 0, 0⟩, maxs := ⟨0, 0, 0⟩
                firstmarksurface := 0, nummarksurfaces := 0
                ambient_sound_level := (fun _ => 0) }]
    hulls := [{}, {}, {}, {}] }

/-- Witness for `makeHull0_isomorphic` on `c4mod`. -/
theorem makeHull0_isomorphic_witness :
    (c4mod.numnodes = c4mod.nodes.length ∧ c4mod.hulls ≠ [] ∧
      ((Mod_MakeHull0 c4mod).hulls.getD 0 {}).clipnodes =
        some ((((Mod_MakeHull0 c4mod).hulls.getD 0 {}).clipnodes).getD [])) ∧
    (((((Mod_MakeHull0 c4mod).hulls.getD 0 {}).clipnodes).getD []).length =
        c4mod.nodes.length ∧
    ∀ (i : ℕ) (nd : mnode_t) (cn : mclipnode_t), c4mod.nodes[i]? = some nd →
      ((((Mod_MakeHull0 c4mod).hulls.getD 0 {}).clipnodes).getD [])[i]? =
        some cn →
      ((0 ≤ nd.planenum → nd.planenum.toNat < c4mod.planes.length →
        cn.planenum = nd.planenum) ∧
      ∀ j : Fin 2,
        (0 ≤ nd.children j → (nd.children j).toNat < c4mod.nodes.length →
          cn.children j = nd.children j) ∧
        (∀ l, nd.children j < 0 →
          c4mod.leafs[(-(nd.children j + 1)).toNat]? = some l →
          l.contents < 0 → cn.children j = l.contents) ∧
        ((0 ≤ nd.children j ∧ c4mod.nodes.length ≤ (nd.children j).toNat) ∨
            (nd.children j < 0 ∧
              c4mod.leafs[(-(nd.children j + 1)).toNat]? = none) →
          cn.children j = CONTENTS_SOLID))) :=
  ⟨⟨rfl, by simp [c4mod], rfl⟩,
    makeHull0_isomorphic c4mod rfl (by simp [c4mod]) _ rfl⟩

/-- A found index is inside the registry prefix. -/
theorem findNameIdx_some_lt :
    ∀ (l : List model_t) (nm : String) (i : ℕ),
      findNameIdx l nm = some i → i < l.length := by
  intro l
  induction l with
  | nil => intro nm i h; simp [findNameIdx] at h
  | cons a t ih =>
    intro nm i h
    simp only [findNameIdx] at h
    split at h
    · obtain rfl := (Option.some.injEq _ _).mp h
      simp
    · rcases ht : findNameIdx t nm with _ | i'
      · rw [ht] at h; simp at h
      · rw [ht] at h
        simp at h
        have := ih nm i' ht
        simp
        omega

/-- Replacing a slot with a model of the same name leaves every name search
unchanged. -/
theorem findNameIdx_set :
    ∀ (l : List model_t) (i : ℕ) (m' : model_t),
      (l.getD i newModel).name = m'.name →
      ∀ nm, findNameIdx (l.set i m') nm = findNameIdx l nm := by
  intro l
  induction l with
  | nil => intro i m' _ nm; rfl
  | cons a t ih =>
    intro i m' hname nm
    cases i with
    | zero =>
      simp only [List.getD_cons_zero] at hname
      simp only [List.set_cons_zero, findNameIdx, hname]
    | succ i' =>
      simp only [List.getD_cons_succ] at hname
      simp only [List.set_cons_succ, findNameIdx, ih i' m' hname nm]

/-- Appending a fresh slot after a failed search finds exactly that slot
(when its name matches). -/
theorem findNameIdx_append_of_none :
    ∀ (l : List model_t) (nm : String) (m : model_t),
      findNameIdx l nm = none →
      findNameIdx (l ++ [m]) nm =
        if m.name = nm then some l.length else none := by
  intro l
  induction l with
  | nil => intro nm m _; simp [findNameIdx]
  | cons a t ih =>
    intro nm m h
    simp only [findNameIdx] at h
    split at h
    · simp at h
    · rcases ht : findNameIdx t nm with _ | i'
      · rename_i hne
        simp only [List.cons_append, findNameIdx, if_neg hne]
        split <;> simp_all [ih nm m ht]
      · rw [ht] at h; simp at h

/-- `Mod_LoadBrushModel` never writes the `name` field. -/
theorem mod_LoadBrushModel_name (g32 : (ℕ → ℕ) → ℕ → ℚ) (mod : model_t)
    (b : Bytes) (m2 : model_t)
    (h : Mod_LoadBrushModel g32 mod b = Except.ok m2) : m2.name = mod.name := by
  simp only [Mod_LoadBrushModel, bind, Except.bind, pure, Except.pure] at h
  repeat' split at h
  all_goals try exact Except.noConfusion h
  all_goals obtain rfl := (Except.ok.injEq _ _).mp h
  all_goals simp [Mod_MakeHull0]

/-- Successful `Mod_LoadModel` with a model result: the result index is the
requested slot, that slot ends loaded, and no name search is disturbed. -/
theorem mod_LoadModel_ok_state (g32 : (ℕ → ℕ) → ℕ → ℚ)
    (oracle : String → Option Bytes) (known : List model_t) (idx : ℕ)
    (crash : Bool) (known' : List model_t) (j c : ℕ)
    (hidx : idx < known.length)
    (h : Mod_LoadModel g32 oracle known idx crash =
      Except.ok (known', some j, c)) :
    j = idx ∧ (known'.getD idx newModel).loaded = true ∧
      ∀ nm, findNameIdx known' nm = findNameIdx known nm := by
  simp only [Mod_LoadModel] at h
  split at h
  · rename_i hloaded
    simp only [Except.ok.injEq, Prod.mk.injEq, Option.some.injEq] at h
    obtain ⟨rfl, rfl, rfl⟩ := h
    exact ⟨rfl, hloaded, fun _ => rfl⟩
  · split at h
    · split at h
      · exact Except.noConfusion h
      · simp only [Except.ok.injEq, Prod.mk.injEq] at h
        exact absurd h.2.1 (by simp)
    · split at h
      · exact Except.noConfusion h
      · split at h
        · split at h
          · exact Except.noConfusion h
          · rename_i mod2 hbrush
            simp only [Except.ok.injEq, Prod.mk.injEq, Option.some.injEq] at h
            obtain ⟨rfl, rfl, rfl⟩ := h
            have hname := mod_LoadBrushModel_name g32 _ _ _ hbrush
            refine ⟨rfl, ?_, ?_⟩
            · simp [List.getD, List.getElem?_set_self hidx]
            · intro nm
              exact findNameIdx_set known idx _ (by simpa using hname.symm) nm
        · simp only [Except.ok.injEq, Prod.mk.injEq, Option.some.injEq] at h
          obtain ⟨rfl, rfl, rfl⟩ := h
          refine ⟨rfl, ?_, ?_⟩
          · simp [List.getD, List.getElem?_set_self hidx]
          · intro nm
            exact findNameIdx_set known idx _ (by simp) nm

/-- C6: loading is idempotent — after a first `Mod_ForName` that returns a
model, a second `Mod_ForName` for the same name returns the identical
registry state and the identical slot index, performs zero byte-source
(`COM_LoadFile`) calls, and does not re-parse: the loaded flag
short-circuits. -/
theorem mod_ForName_idempotent (g32 : (ℕ → ℕ) → ℕ → ℚ)
    (oracle : String → Option Bytes) (known : List model_t) (name : String)
    (crash crash2 : Bool) (known' : List model_t) (idx : ℕ) (c : ℕ)
    (h : Mod_ForName g32 oracle known name crash =
      Except.ok (known', some idx, c)) :
    Mod_ForName g32 oracle known' name crash2 =
      Except.ok (known', some idx, 0) := by
  simp only [Mod_ForName, bind, Except.bind] at h ⊢
  cases hf : Mod_FindName known name with
  | error e => rw [hf] at h; exact absurd h (by simp)
  | ok fi =>
    rw [hf] at h
    -- facts from the find step
    simp only [Mod_FindName] at hf
    split at hf
    · exact absurd hf (by simp)
    · rename_i hnm
      have hfind1 : findNameIdx fi.1 name = some fi.2 ∧ fi.2 < fi.1.length := by
        rcases hidx : findNameIdx known name with _ | i
        · simp only [hidx] at hf
          split at hf
          · exact Except.noConfusion hf
          · obtain rfl := (Except.ok.injEq _ _).mp hf
            constructor
            · rw [findNameIdx_append_of_none known name _ hidx]
              simp
            · simp
        · simp only [hidx] at hf
          obtain rfl := (Except.ok.injEq _ _).mp hf
          exact ⟨hidx, findNameIdx_some_lt known name _ hidx⟩
      obtain ⟨hsome, hlt⟩ := hfind1
      obtain ⟨rfl, hloaded, hstable⟩ :=
        mod_LoadModel_ok_state g32 oracle fi.1 fi.2 crash known' _ c hlt h
      have hfind2 : Mod_FindName known' name = Except.ok (known', fi.2) := by
        simp only [Mod_FindName, if_neg hnm, hstable name, hsome]
      rw [hfind2]
      simp only [Mod_LoadModel, hloaded, if_pos]

/-- A byte source serving a 4-byte non-BSP file for every name. -/
def c6oracle : String → Option Bytes := fun _ => some ⟨4, fun _ => 7⟩

/-- The registry state after loading "m" through `c6oracle`. -/
def c6state : List model_t :=
  [{ newModel with name := "m", type := mod_alias, loaded := true }]

/-- Witness for `mod_ForName_idempotent`: a first load of "m" through
`c6oracle` consults the byte source once; the repeat load returns the same
state and slot with zero byte-source calls. -/
theorem mod_ForName_idempotent_witness :
    Mod_ForName qZero c6oracle [] "m" false = Except.ok (c6state, some 0, 1) ∧
    Mod_ForName qZero c6oracle c6state "m" true =
      Except.ok (c6state, some 0, 0) :=
  ⟨rfl, mod_ForName_idempotent qZero c6oracle [] "m" false true c6state 0 1 rfl⟩

/-! ## Entity fragment functions (gl_refrag.c port)

The world BSP is a pointer tree of `mnode_t`/`mleaf_t` objects (built by the
client-side loader, outside this module); it is embedded as an inductive
tree whose `null` constructor stands for an absent child.  Efrag records,
which the source threads through the mutable `entnext`/`leafnext` pointer
fields, are embedded as identifiers: the free list (chained through
`entnext`), each leaf's `efrags` chain (chained through `leafnext`) and the
entity's chain are the corresponding identifier lists, and the per-record
`entity`/`leaf` fields are finite maps. -/

/-- A world BSP element: an interior node carries its splitting plane and
two children; a leaf carries its contents and an identifier (standing for
the leaf object's identity, used to key its `efrags` chain). -/
inductive BspElem where
  | null : BspElem
  | leaf (contents : ℤ) (id : ℕ) : BspElem
  | node (plane : mplane_t) (c0 c1 : BspElem) : BspElem
  deriving DecidableEq

/-- Whether an element is an interior node (`contents` 0 in the source's
discriminated representation). -/
def BspElem.isNode : BspElem → Bool
  | .node _ _ _ => true
  | _ => false

/-- Every leaf of the tree has negative contents — the data-model invariant
of the source (`mleaf_t.contents` is always a negative content code).  A
leaf violating it would send `R_SplitEntityOnNode` into the node branch,
which faults reading `node.plane` of a leaf; the embedding's harmless
fall-through below is only exercised outside this invariant. -/
def leafContentsNeg : BspElem → Bool
  | .null => true
  | .leaf c _ => decide (c < 0)
  | .node _ c0 c1 => leafContentsNeg c0 && leafContentsNeg c1

/-- The mutable efrag state: the client's free list (`cl.free_efrags`), the
per-leaf `efrags` chains, the per-record `entity` and `leaf` fields, and the
two globals of the linker (`lastlink`, represented by the chain built so
far in link order, and `r_pefragtopnode`). -/
structure efragState where
  free : List ℕ
  chains : ℕ → List ℕ
  owner : ℕ → Option ℕ
  leafOf : ℕ → Option ℕ
  entChain : List ℕ
  topnode : Option BspElem

/-- An entity as seen by the fragment linker: its identity, origin, model
bounds (when it has a model), its fragment chain head and its recorded top
node. -/
structure entity_t where
  id : ℕ
  origin : Vec3 ℚ
  model : Option (Vec3 ℚ × Vec3 ℚ)
  efrag : List ℕ := []
  topnode : Option BspElem := none

/-- `R_SplitEntityOnNode`: recursive descent.  A SOLID leaf is skipped; any
other leaf records the top node (if still unset), takes a record off the
free list if one remains (else logs "Too many efrags!" and stops at this
leaf), stamps it with the entity, appends it to the entity chain and
prepends it to the leaf's chain.  An interior node classifies the box,
records the first straddling node, and recurses into the touched sides. -/
def R_SplitEntityOnNode (entid : ℕ) (emins emaxs : Vec3 ℚ) :
    BspElem → efragState → efragState
  | .null, st => st
  | .leaf c lid, st =>
    if c = CONTENTS_SOLID then st
    else if c < 0 then
      let st1 := { st with
        topnode := if st.topnode.isNone then some (.leaf c lid) else st.topnode }
      match st1.free with
      | [] => st1
      | ef :: rest =>
        { st1 with
          free := rest
          owner := Function.update st1.owner ef (some entid)
          entChain := st1.entChain ++ [ef]
          leafOf := Function.update st1.leafOf ef (some lid)
          chains := Function.update st1.chains lid (ef :: st1.chains lid) }
    else st
  | .node pl c0 c1, st =>
    let sides := BOX_ON_PLANE_SIDE emins emaxs pl
    let st1 :=
      if sides = 3 ∧ st.topnode.isNone then
        { st with topnode := some (.node pl c0 c1) }
      else st
    let st2 :=
      if sides &&& 1 ≠ 0 then R_SplitEntityOnNode entid emins emaxs c0 st1
      else st1
    if sides &&& 2 ≠ 0 then R_SplitEntityOnNode entid emins emaxs c1 st2
    else st2

/-- `R_AddEfrags`: an entity without a model is skipped; otherwise the
world box is the origin-translated model box, the linker globals are reset,
the descent runs from the world root, and the entity records its chain
(`ent.efrag` is only assigned when a first fragment is linked) and the top
node. -/
def R_AddEfrags (world : BspElem) (ent : entity_t) (st : efragState) :
    efragState × entity_t :=
  match ent.model with
  | none => (st, ent)
  | some m =>
    let emins : Vec3 ℚ := ⟨ent.origin.x + m.1.x, ent.origin.y + m.1.y,
                           ent.origin.z + m.1.z⟩
    let emaxs : Vec3 ℚ := ⟨ent.origin.x + m.2.x, ent.origin.y + m.2.y,
                           ent.origin.z + m.2.z⟩
    let st1 := R_SplitEntityOnNode ent.id emins emaxs world
      { st with entChain := [], topnode := none }
    (st1,
     { ent with
       efrag := if st1.entChain = [] then ent.efrag else st1.entChain
       topnode := st1.topnode })

/-- The loop body of `R_RemoveEfrags`: walk the entity chain; unlink each
fragment from its leaf's chain (pop the head, else linear search for the
predecessor — i.e. erase the first occurrence; a null or empty chain is
left alone) and push the fragment back on the free list. -/
def R_RemoveEfrags_loop : List ℕ → efragState → efragState
  | [], st => st
  | ef :: rest, st =>
    let st1 :=
      match st.leafOf ef with
      | some l =>
        if st.chains l = [] then st
        else { st with
          chains := Function.update st.chains l ((st.chains l).erase ef) }
      | none => st
    R_RemoveEfrags_loop rest { st1 with free := ef :: st1.free }

/-- `R_RemoveEfrags`: unlink every fragment of the entity and clear its
chain head. -/
def R_RemoveEfrags (ent : entity_t) (st : efragState) :
    efragState × entity_t :=
  (R_RemoveEfrags_loop ent.efrag st, { ent with efrag := [] })

/-- The first stopping event of the descent in pre-order: the first node at
which the box straddles the splitting plane, or the first non-solid leaf
reached when that comes first. -/
def firstStop (emins emaxs : Vec3 ℚ) : BspElem → Option BspElem
  | .null => none
  | .leaf c lid =>
    if c = CONTENTS_SOLID then none
    else if c < 0 then some (.leaf c lid)
    else none
  | .node pl c0 c1 =>
    let sides := BOX_ON_PLANE_SIDE emins emaxs pl
    if sides = 3 then some (.node pl c0 c1)
    else if sides &&& 1 ≠ 0 then firstStop emins emaxs c0
    else if sides &&& 2 ≠ 0 then firstStop emins emaxs c1
    else none

/-- `R_StoreEfrags`: walk a leaf's fragment chain (given as the entity of
each fragment in `leafnext` order) and append each not-yet-stamped entity
with a model to the visible-entity array while below `MAX_VISEDICTS`,
stamping its `visframe`; returns the array, the count and the stamps. -/
def R_StoreEfrags (chain : List ℕ) (cl_visedicts : ℕ → Option ℕ)
    (cl_numvisedicts : ℕ) (MAX_VISEDICTS : ℕ) (r_framecount : ℤ)
    (visframe : ℕ → ℤ) (hasModel : ℕ → Bool) :
    (ℕ → Option ℕ) × ℕ × (ℕ → ℤ) :=
  match chain with
  | [] => (cl_visedicts, cl_numvisedicts, visframe)
  | entid :: rest =>
    if hasModel entid ∧ visframe entid ≠ r_framecount ∧
        cl_numvisedicts < MAX_VISEDICTS then
      R_StoreEfrags rest
        (Function.update cl_visedicts cl_numvisedicts (some entid))
        (cl_numvisedicts + 1) MAX_VISEDICTS r_framecount
        (Function.update visframe entid r_framecount) hasModel
    else
      R_StoreEfrags rest cl_visedicts cl_numvisedicts MAX_VISEDICTS
        r_framecount visframe hasModel

/-- The effect of one linker descent on the efrag state, relative to the
incoming state: `k` fragments are popped off the front of the free list;
they are appended to the entity chain in pop order, stamped with the
entity, each assigned a leaf, and prepended (in reverse pop order) to the
chains of their assigned leafs; nothing else changes. -/
def SplitSpec (entid : ℕ) (stIn stOut : efragState) (k : ℕ) : Prop :=
  k ≤ stIn.free.length ∧
  stOut.free = stIn.free.drop k ∧
  stOut.entChain = stIn.entChain ++ stIn.free.take k ∧
  (∀ x, x ∉ stIn.free.take k → stOut.owner x = stIn.owner x) ∧
  (∀ x ∈ stIn.free.take k, stOut.owner x = some entid) ∧
  (∀ x, x ∉ stIn.free.take k → stOut.leafOf x = stIn.leafOf x) ∧
  (∀ x ∈ stIn.free.take k, (stOut.leafOf x).isSome = true) ∧
  (∀ l, stOut.chains l =
    ((stIn.free.take k).filter
      (fun e => decide (stOut.leafOf e = some l))).reverse ++ stIn.chains l)

/-- The identity descent step satisfies the spec with zero pops. -/
theorem SplitSpec_refl (entid : ℕ) (st : efragState) :
    SplitSpec entid st st 0 := by
  refine ⟨Nat.zero_le _, by simp, by simp, fun x _ => rfl, by simp, fun x _ => rfl,
    by simp, fun l => by simp⟩

/-- Two consecutive descent steps compose: the pops concatenate. -/
theorem SplitSpec_comp (entid : ℕ) (st1 st2 st3 : efragState) (k0 k1 : ℕ)
    (hnd : st1.free.Nodup) (h1 : SplitSpec entid st1 st2 k0)
    (h2 : SplitSpec entid st2 st3 k1) :
    SplitSpec entid st1 st3 (k0 + k1) := by
  obtain ⟨h1le, h1free, h1chain, h1ownN, h1ownY, h1leafN, h1leafY, h1chains⟩ := h1
  obtain ⟨h2le, h2free, h2chain, h2ownN, h2ownY, h2leafN, h2leafY, h2chains⟩ := h2
  have hdisj : ∀ x ∈ st1.free.take k0, x ∉ st1.free.drop k0 := by
    have := hnd
    rw [← List.take_append_drop k0 st1.free, List.nodup_append] at this
    exact fun x hx => this.2.2 hx
  have htake : st1.free.take (k0 + k1) =
      st1.free.take k0 ++ (st1.free.drop k0).take k1 := List.take_add _ _ _
  have hmem2 : ∀ x ∈ (st1.free.drop k0).take k1, x ∈ st1.free.drop k0 :=
    fun x hx => List.take_subset _ _ hx
  have hnot2 : ∀ x ∈ st1.free.take k0, x ∉ (st2.free.take k1) := by
    rw [h1free]
    exact fun x hx hx2 => hdisj x hx (hmem2 x hx2)
  refine ⟨?_, ?_, ?_, ?_, ?_, ?_, ?_, ?_⟩
  · have := List.length_drop k0 st1.free
    rw [h1free] at h2le
    omega
  · rw [h2free, h1free, List.drop_drop]
  · rw [h2chain, h1chain, htake, h1free, List.append_assoc]
  · intro x hx
    rw [htake] at hx
    simp only [List.mem_append, not_or] at hx
    rw [h2ownN x (by rw [h1free]; exact hx.2), h1ownN x hx.1]
  · intro x hx
    rw [htake] at hx
    rcases List.mem_append.mp hx with hx1 | hx2
    · rw [h2ownN x (hnot2 x hx1)]
      exact h1ownY x hx1
    · exact h2ownY x (by rw [h1free]; exact hx2)
  · intro x hx
    rw [htake] at hx
    simp only [List.mem_append, not_or] at hx
    rw [h2leafN x (by rw [h1free]; exact hx.2), h1leafN x hx.1]
  · intro x hx
    rw [htake] at hx
    rcases List.mem_append.mp hx with hx1 | hx2
    · rw [h2leafN x (hnot2 x hx1)]
      exact h1leafY x hx1
    · exact h2leafY x (by rw [h1free]; exact hx2)
  · intro l
    rw [h2chains l, h1chains l, htake, List.filter_append, List.reverse_append,
      List.append_assoc]
    have hcongr : (st1.free.take k0).filter
        (fun e => decide (st3.leafOf e = some l)) =
        (st1.free.take k0).filter (fun e => decide (st2.leafOf e = some l)) :=
      List.filter_congr fun x hx => by rw [h2leafN x (hnot2 x hx)]
    rw [hcongr, h1free]

/-- A step that leaves every linker-visible field unchanged (it may move
`topnode`) satisfies the spec with zero pops. -/
theorem SplitSpec_zero (entid : ℕ) (st st' : efragState)
    (hfree : st'.free = st.free) (hch : st'.chains = st.chains)
    (hown : st'.owner = st.owner) (hleaf : st'.leafOf = st.leafOf)
    (hent : st'.entChain = st.entChain) : SplitSpec entid st st' 0 := by
  refine ⟨Nat.zero_le _, by simp [hfree], by simp [hent],
    fun x _ => by rw [hown], by simp, fun x _ => by rw [hleaf], by simp,
    fun l => by simp [hch]⟩

/-- The spec only reads the linker-visible fields of the incoming state. -/
theorem SplitSpec_congr_in (entid : ℕ) (st st' stOut : efragState) (k : ℕ)
    (h : SplitSpec entid st' stOut k) (hfree : st'.free = st.free)
    (hch : st'.chains = st.chains) (hown : st'.owner = st.owner)
    (hleaf : st'.leafOf = st.leafOf) (hent : st'.entChain = st.entChain) :
    SplitSpec entid st stOut k := by
  unfold SplitSpec at h ⊢
  rw [hfree, hch, hown, hleaf, hent] at h
  exact h

/-- The linker descent satisfies `SplitSpec` for some number of pops. -/
theorem R_SplitEntityOnNode_spec (entid : ℕ) (emins emaxs : Vec3 ℚ) :
    ∀ (t : BspElem) (st : efragState), st.free.Nodup →
    ∃ k, SplitSpec entid st (R_SplitEntityOnNode entid emins emaxs t st) k := by
  intro t
  induction t with
  | null => exact fun st _ => ⟨0, SplitSpec_refl entid st⟩
  | leaf c lid =>
    intro st hnd
    by_cases hsolid : c = CONTENTS_SOLID
    · refine ⟨0, ?_⟩
      simp only [R_SplitEntityOnNode, if_pos hsolid]
      exact SplitSpec_refl entid st
    · by_cases hneg : c < 0
      · rcases hfree : st.free with _ | ⟨ef, rest⟩
        · refine ⟨0, ?_⟩
          simp only [R_SplitEntityOnNode, if_neg hsolid, if_pos hneg]
          rw [hfree]
          exact SplitSpec_zero entid st _ (by rw [hfree]) rfl rfl rfl rfl
        · refine ⟨1, ?_⟩
          simp only [R_SplitEntityOnNode, if_neg hsolid, if_pos hneg]
          rw [hfree]
          dsimp only
          refine ⟨by rw [hfree]; simp, by rw [hfree]; simp,
            by rw [hfree]; simp, ?_, ?_, ?_, ?_, ?_⟩
          · intro x hx
            rw [hfree] at hx
            simp only [List.take_succ_cons, List.take_zero,
              List.mem_singleton] at hx
            exact Function.update_noteq hx _ _
          · intro x hx
            rw [hfree] at hx
            simp only [List.take_succ_cons, List.take_zero,
              List.mem_singleton] at hx
            subst hx
            exact Function.update_same _ _ _
          · intro x hx
            rw [hfree] at hx
            simp only [List.take_succ_cons, List.take_zero,
              List.mem_singleton] at hx
            exact Function.update_noteq hx _ _
          · intro x hx
            rw [hfree] at hx
            simp only [List.take_succ_cons, List.take_zero,
              List.mem_singleton] at hx
            subst hx
            simp [Function.update_same]
          · intro l
            rw [hfree]
            simp only [List.take_succ_cons, List.take_zero, List.filter_cons,
              List.filter_nil, Function.update_apply]
            by_cases hl : l = lid
            · subst hl
              simp
            · simp [hl, Ne.symm hl]
      · refine ⟨0, ?_⟩
        simp only [R_SplitEntityOnNode, if_neg hsolid, if_neg hneg]
        exact SplitSpec_refl entid st
  | node pl c0 c1 ih0 ih1 =>
    intro st hnd
    simp only [R_SplitEntityOnNode]
    set sides := BOX_ON_PLANE_SIDE emins emaxs pl with hsd
    set st1 := (if sides = 3 ∧ st.topnode.isNone = true then
      { st with topnode := some (.node pl c0 c1) } else st) with hst1
    have hst1f : st1.free = st.free := by rw [hst1]; split <;> rfl
    have hst1c : st1.chains = st.chains := by rw [hst1]; split <;> rfl
    have hst1o : st1.owner = st.owner := by rw [hst1]; split <;> rfl
    have hst1l : st1.leafOf = st.leafOf := by rw [hst1]; split <;> rfl
    have hst1e : st1.entChain = st.entChain := by rw [hst1]; split <;> rfl
    set st2 := (if sides &&& 1 ≠ 0 then
      R_SplitEntityOnNode entid emins emaxs c0 st1 else st1) with hst2
    have H1 : ∃ k0, SplitSpec entid st st2 k0 := by
      rw [hst2]
      split
      · obtain ⟨k0, hk0⟩ := ih0 st1 (by rw [hst1f]; exact hnd)
        exact ⟨k0, SplitSpec_congr_in entid st st1 _ k0 hk0 hst1f hst1c hst1o
          hst1l hst1e⟩
      · exact ⟨0, SplitSpec_zero entid st st1 hst1f hst1c hst1o hst1l hst1e⟩
    obtain ⟨k0, hk0⟩ := H1
    have hnd2 : st2.free.Nodup := by
      rw [hk0.2.1]
      exact (List.drop_sublist _ _).nodup hnd
    have H2 : ∃ k1, SplitSpec entid st2
        (if sides &&& 2 ≠ 0 then R_SplitEntityOnNode entid emins emaxs c1 st2
          else st2) k1 := by
      split
      · exact ih1 st2 hnd2
      · exact ⟨0, SplitSpec_refl entid st2⟩
    obtain ⟨k1, hk1⟩ := H2
    exact ⟨k0 + k1, SplitSpec_comp entid st st2 _ k0 k1 hnd hk0 hk1⟩

/-- Walking a distinct fragment list whose members sit exactly at the front
of their assigned leafs' chains (and nowhere in the residual chains `C`)
unlinks precisely those fragments — the chains return to `C` — and pushes
every walked fragment onto the free list; no other field changes. -/
theorem R_RemoveEfrags_loop_spec :
    ∀ (P : List ℕ) (st : efragState) (C : ℕ → List ℕ),
      P.Nodup →
      (∀ e ∈ P, (st.leafOf e).isSome = true) →
      (∀ l, st.chains l =
        (P.filter (fun e => decide (st.leafOf e = some l))).reverse ++ C l) →
      (∀ e ∈ P, ∀ l, e ∉ C l) →
      (∀ l, (R_RemoveEfrags_loop P st).chains l = C l) ∧
      (R_RemoveEfrags_loop P st).free = P.reverse ++ st.free ∧
      (R_RemoveEfrags_loop P st).owner = st.owner ∧
      (R_RemoveEfrags_loop P st).leafOf = st.leafOf ∧
      (R_RemoveEfrags_loop P st).entChain = st.entChain ∧
      (R_RemoveEfrags_loop P st).topnode = st.topnode := by
  intro P
  induction P with
  | nil =>
    intro st C _ _ hch _
    exact ⟨fun l => by simpa using hch l, by simp [R_RemoveEfrags_loop],
      rfl, rfl, rfl, rfl⟩
  | cons e rest ih =>
    intro st C hnd hleaf hch hdisj
    obtain ⟨le, hle⟩ : ∃ l, st.leafOf e = some l := by
      have h1 := hleaf e (by simp)
      rcases h : st.leafOf e with _ | l
      · rw [h] at h1; simp at h1
      · exact ⟨l, rfl⟩
    have henr : e ∉ rest := (List.nodup_cons.mp hnd).1
    have hchle : st.chains le =
        ((rest.filter (fun x => decide (st.leafOf x = some le))).reverse ++
          [e]) ++ C le := by
      have h0 := hch le
      rw [List.filter_cons, if_pos (by simp [hle]), List.reverse_cons] at h0
      exact h0
    have hnonnil : st.chains le ≠ [] := by rw [hchle]; simp
    have henA : e ∉ (rest.filter
        (fun x => decide (st.leafOf x = some le))).reverse := by
      simp only [List.mem_reverse, List.mem_filter]
      exact fun hx => henr hx.1
    have herase : (st.chains le).erase e =
        (rest.filter (fun x => decide (st.leafOf x = some le))).reverse ++
          C le := by
      rw [hchle, List.append_assoc, List.erase_append_right _ henA]
      simp [List.erase_cons_head]
    have hloop : R_RemoveEfrags_loop (e :: rest) st =
        R_RemoveEfrags_loop rest
          { st with
            chains := Function.update st.chains le ((st.chains le).erase e)
            free := e :: st.free } := by
      simp only [R_RemoveEfrags_loop, hle, if_neg hnonnil]
    rw [hloop]
    obtain ⟨ih1, ih2, ih3, ih4, ih5, ih6⟩ := ih
      { st with
        chains := Function.update st.chains le ((st.chains le).erase e)
        free := e :: st.free } C
      (List.nodup_cons.mp hnd).2
      (fun x hx => hleaf x (List.mem_cons_of_mem _ hx))
      (fun l => by
        dsimp only
        by_cases hl : l = le
        · subst hl
          simp only [Function.update_same]
          exact herase
        · rw [Function.update_noteq (Ne.symm fun h => hl h.symm)]
          have h0 := hch l
          rw [List.filter_cons, if_neg (by
            simp only [hle, decide_eq_true_eq, Option.some.injEq]
            exact fun h => hl h.symm)] at h0
          exact h0)
      (fun x hx l => hdisj x (List.mem_cons_of_mem _ hx) l)
    refine ⟨ih1, ?_, ih3, ih4, ih5, ih6⟩
    rw [ih2]
    simp

/-- C5: `R_AddEfrags` followed by `R_RemoveEfrags` (with no other mutation
in between) restores the free list to its prior length, leaves the entity's
fragment chain empty, restores every leaf's chain to its prior contents,
and in particular leaves no leaf chain containing a fragment that
references the entity. -/
theorem add_then_remove_restores (world : BspElem) (ent : entity_t)
    (st : efragState) (m : Vec3 ℚ × Vec3 ℚ) (hm : ent.model = some m)
    (hwf : leafContentsNeg world = true) (hnd : st.free.Nodup)
    (hdisj : ∀ e ∈ st.free, ∀ l, e ∉ st.chains l) (hefrag : ent.efrag = [])
    (hown : ∀ l e, e ∈ st.chains l → st.owner e ≠ some ent.id) :
    (R_RemoveEfrags (R_AddEfrags world ent st).2
        (R_AddEfrags world ent st).1).1.free.length = st.free.length ∧
    (R_RemoveEfrags (R_AddEfrags world ent st).2
        (R_AddEfrags world ent st).1).2.efrag = [] ∧
    (∀ l, (R_RemoveEfrags (R_AddEfrags world ent st).2
        (R_AddEfrags world ent st).1).1.chains l = st.chains l) ∧
    (∀ l e, e ∈ (R_RemoveEfrags (R_AddEfrags world ent st).2
        (R_AddEfrags world ent st).1).1.chains l →
      (R_RemoveEfrags (R_AddEfrags world ent st).2
        (R_AddEfrags world ent st).1).1.owner e ≠ some ent.id) := by
  clear hwf
  set emins : Vec3 ℚ := ⟨ent.origin.x + m.1.x, ent.origin.y + m.1.y,
    ent.origin.z + m.1.z⟩ with hemins
  set emaxs : Vec3 ℚ := ⟨ent.origin.x + m.2.x, ent.origin.y + m.2.y,
    ent.origin.z + m.2.z⟩ with hemaxs
  obtain ⟨k, hkle, hkfree, hkchain, hkownN, hkownY, hkleafN, hkleafY,
      hkchains⟩ := R_SplitEntityOnNode_spec ent.id emins emaxs world
    { st with entChain := [], topnode := none } hnd
  dsimp only at hkle hkfree hkchain hkownN hkownY hkleafN hkleafY hkchains
  have haddfst : (R_AddEfrags world ent st).1 =
      R_SplitEntityOnNode ent.id emins emaxs world
        { st with entChain := [], topnode := none } := by
    simp only [R_AddEfrags, hm]
  have haddsnd : (R_AddEfrags world ent st).2.efrag =
      if (R_SplitEntityOnNode ent.id emins emaxs world
          { st with entChain := [], topnode := none }).entChain = [] then
        ent.efrag
      else (R_SplitEntityOnNode ent.id emins emaxs world
        { st with entChain := [], topnode := none }).entChain := by
    simp only [R_AddEfrags, hm]
  have hef : (R_AddEfrags world ent st).2.efrag = st.free.take k := by
    rw [haddsnd, hkchain]
    rcases ht : st.free.take k with _ | ⟨x, xs⟩
    · simp [hefrag]
    · simp
  have hmemfree : ∀ e ∈ st.free.take k, e ∈ st.free :=
    fun e he => List.take_subset _ _ he
  obtain ⟨hr1, hr2, hr3, hr4, hr5, hr6⟩ := R_RemoveEfrags_loop_spec
    (st.free.take k)
    (R_SplitEntityOnNode ent.id emins emaxs world
      { st with entChain := [], topnode := none })
    st.chains
    ((List.take_sublist _ _).nodup hnd)
    (fun e he => hkleafY e he)
    (fun l => hkchains l)
    (fun e he l hc => hdisj e (hmemfree e he) l hc)
  have hrem : R_RemoveEfrags (R_AddEfrags world ent st).2
      (R_AddEfrags world ent st).1 =
      (R_RemoveEfrags_loop (st.free.take k)
          (R_SplitEntityOnNode ent.id emins emaxs world
            { st with entChain := [], topnode := none }),
        { (R_AddEfrags world ent st).2 with efrag := [] }) := by
    rw [R_RemoveEfrags, hef, haddfst]
  rw [hrem]
  refine ⟨?_, rfl, hr1, ?_⟩
  · rw [hr2, hkfree]
    have h1 : (st.free.take k).length = k := by
      rw [List.length_take]
      omega
    simp [h1]
    omega
  · intro l e he
    rw [hr1 l] at he
    rw [hr3]
    have henot : e ∉ st.free.take k := fun hmem =>
      hdisj e (hmemfree e hmem) l he
    rw [hkownN e henot]
    exact hown l e he

/-- A tiny world for the C5 witness: one splitting plane with an `EMPTY`
leaf in front and a `SOLID` leaf behind. -/
def c5world : BspElem :=
  .node (axialPlane 0 0 0) (.leaf (-1) 0) (.leaf (-2) 1)

/-- The C5 witness entity: a unit box at (5,5,5). -/
def c5ent : entity_t :=
  { id := 7, origin := ⟨5, 5, 5⟩
    model := some (⟨-1, -1, -1⟩, ⟨1, 1, 1⟩) }

/-- The C5 witness state: two free efrags, all chains empty. -/
def c5st : efragState :=
  { free := [0, 1], chains := fun _ => [], owner := fun _ => none
    leafOf := fun _ => none, entChain := [], topnode := none }

/-- Witness for `add_then_remove_restores` on the concrete world, entity
and state above. -/
theorem add_then_remove_restores_witness :
    (c5ent.model = some (⟨-1, -1, -1⟩, ⟨1, 1, 1⟩) ∧
      leafContentsNeg c5world = true ∧ c5st.free.Nodup ∧
      (∀ e ∈ c5st.free, ∀ l, e ∉ c5st.chains l) ∧ c5ent.efrag = [] ∧
      (∀ l e, e ∈ c5st.chains l → c5st.owner e ≠ some c5ent.id)) ∧
    ((R_RemoveEfrags (R_AddEfrags c5world c5ent c5st).2
        (R_AddEfrags c5world c5ent c5st).1).1.free.length =
      c5st.free.length ∧
    (R_RemoveEfrags (R_AddEfrags c5world c5ent c5st).2
        (R_AddEfrags c5world c5ent c5st).1).2.efrag = [] ∧
    (∀ l, (R_RemoveEfrags (R_AddEfrags c5world c5ent c5st).2
        (R_AddEfrags c5world c5ent c5st).1).1.chains l = c5st.chains l) ∧
    (∀ l e, e ∈ (R_RemoveEfrags (R_AddEfrags c5world c5ent c5st).2
        (R_AddEfrags c5world c5ent c5st).1).1.chains l →
      (R_RemoveEfrags (R_AddEfrags c5world c5ent c5st).2
        (R_AddEfrags c5world c5ent c5st).1).1.owner e ≠ some c5ent.id)) :=
  ⟨⟨rfl, by decide, by decide, by simp [c5st], rfl, by simp [c5st]⟩,
    add_then_remove_restores c5world c5ent c5st _ rfl (by decide) (by decide)
      (by simp [c5st]) rfl (by simp [c5st])⟩

/-- The classifier result is a 2-bit value. -/
theorem BOX_ON_PLANE_SIDE_le_three (emins emaxs : Vec3 ℚ) (p : mplane_t) :
    BOX_ON_PLANE_SIDE emins emaxs p ≤ 3 := by
  unfold BOX_ON_PLANE_SIDE boxAxialCase boxGeneralCase
  dsimp only
  split_ifs <;> simp

/-- The descent never clears a recorded top node. -/
theorem R_SplitEntityOnNode_topnode_mono (entid : ℕ) (emins emaxs : Vec3 ℚ) :
    ∀ (t : BspElem) (st : efragState) (x : BspElem), st.topnode = some x →
    (R_SplitEntityOnNode entid emins emaxs t st).topnode = some x := by
  intro t
  induction t with
  | null => exact fun st x hx => hx
  | leaf c lid =>
    intro st x hx
    by_cases hsolid : c = CONTENTS_SOLID
    · simp only [R_SplitEntityOnNode, if_pos hsolid]
      exact hx
    · by_cases hneg : c < 0
      · simp only [R_SplitEntityOnNode, if_neg hsolid, if_pos hneg]
        have hnone : st.topnode.isNone = false := by rw [hx]; rfl
        rcases hfree : st.free with _ | ⟨ef, rest⟩ <;>
          simp [hnone, hfree, hx]
      · simp only [R_SplitEntityOnNode, if_neg hsolid, if_neg hneg]
        exact hx
  | node pl c0 c1 ih0 ih1 =>
    intro st x hx
    simp only [R_SplitEntityOnNode]
    have hnone : st.topnode.isNone = false := by rw [hx]; rfl
    have hst1 : (if BOX_ON_PLANE_SIDE emins emaxs pl = 3 ∧
        st.topnode.isNone = true then
        { st with topnode := some (.node pl c0 c1) } else st) = st := by
      rw [if_neg]
      simp [hnone]
    rw [hst1]
    by_cases hb1 : BOX_ON_PLANE_SIDE emins emaxs pl &&& 1 ≠ 0
    · rw [if_pos hb1]
      by_cases hb2 : BOX_ON_PLANE_SIDE emins emaxs pl &&& 2 ≠ 0
      · rw [if_pos hb2]
        exact ih1 _ x (ih0 _ x hx)
      · rw [if_neg hb2]
        exact ih0 _ x hx
    · rw [if_neg hb1]
      by_cases hb2 : BOX_ON_PLANE_SIDE emins emaxs pl &&& 2 ≠ 0
      · rw [if_pos hb2]
        exact ih1 _ x hx
      · rw [if_neg hb2]
        exact hx

/-- Starting with no recorded top node, the descent records exactly the
first stopping event: the first straddling node in pre-order, or the first
non-solid leaf when that comes first. -/
theorem R_SplitEntityOnNode_topnode (entid : ℕ) (emins emaxs : Vec3 ℚ) :
    ∀ (t : BspElem) (st : efragState), st.topnode = none →
    (R_SplitEntityOnNode entid emins emaxs t st).topnode =
      firstStop emins emaxs t := by
  intro t
  induction t with
  | null => intro st hx; simpa [firstStop] using hx
  | leaf c lid =>
    intro st hx
    by_cases hsolid : c = CONTENTS_SOLID
    · simp only [R_SplitEntityOnNode, if_pos hsolid, firstStop]
      exact hx
    · by_cases hneg : c < 0
      · simp only [R_SplitEntityOnNode, if_neg hsolid, if_pos hneg, firstStop]
        have hnone : st.topnode.isNone = true := by rw [hx]; rfl
        rcases hfree : st.free with _ | ⟨ef, rest⟩ <;>
          simp [hnone, hsolid, hneg]
      · simp only [R_SplitEntityOnNode, if_neg hsolid, if_neg hneg, firstStop]
        exact hx
  | node pl c0 c1 ih0 ih1 =>
    intro st hx
    have hnone : st.topnode.isNone = true := by rw [hx]; rfl
    have hle3 := BOX_ON_PLANE_SIDE_le_three emins emaxs pl
    simp only [R_SplitEntityOnNode, firstStop]
    set sv := BOX_ON_PLANE_SIDE emins emaxs pl with hsv
    interval_cases sv
    · simp +decide [hnone]
      exact hx
    · simp +decide [hnone]
      exact ih0 st hx
    · simp +decide [hnone]
      exact ih1 st hx
    · simp +decide [hnone]
      exact R_SplitEntityOnNode_topnode_mono entid emins emaxs c1 _ _
        (R_SplitEntityOnNode_topnode_mono entid emins emaxs c0 _ _ rfl)

/-- C8 (amended): after `R_AddEfrags`, the recorded top node is the first
stopping event of the pre-order descent — the shallowest node at which the
box straddles a plane when that occurs before reaching any non-solid leaf,
and otherwise the first non-solid leaf reached (a leaf, not an interior
node); it is null when the descent reaches neither. -/
theorem addEfrags_topnode_firstStop (world : BspElem) (ent : entity_t)
    (st : efragState) (m : Vec3 ℚ × Vec3 ℚ) (hm : ent.model = some m) :
    (R_AddEfrags world ent st).2.topnode =
      firstStop ⟨ent.origin.x + m.1.x, ent.origin.y + m.1.y,
                 ent.origin.z + m.1.z⟩
                ⟨ent.origin.x + m.2.x, ent.origin.y + m.2.y,
                 ent.origin.z + m.2.z⟩ world := by
  simp only [R_AddEfrags, hm]
  exact R_SplitEntityOnNode_topnode _ _ _ world
    { st with entChain := [], topnode := none } rfl

/-- The C8 world: a single splitting plane with an `EMPTY` leaf in front
and a `SOLID` leaf behind. -/
def c8world : BspElem :=
  .node (axialPlane 0 0 0) (.leaf (-1) 0) (.leaf (-2) 1)

/-- The C8 entity: a unit box at (5,5,5), entirely on the front side. -/
def c8ent : entity_t :=
  { id := 3, origin := ⟨5, 5, 5⟩
    model := some (⟨-1, -1, -1⟩, ⟨1, 1, 1⟩) }

/-- The C8 state: one free efrag. -/
def c8st : efragState :=
  { free := [0], chains := fun _ => [], owner := fun _ => none
    leafOf := fun _ => none, entChain := [], topnode := none }

/-- C8 counterexample: the box never straddles a plane of the descent (the
root classifies it as 1, fully in front), yet the entity is linked into a
non-solid leaf and `ent.topnode` is recorded as that **leaf** — not a node
at which the box was found to straddle a plane. -/
theorem topnode_is_leaf_when_no_straddle :
    (R_AddEfrags c8world c8ent c8st).2.efrag = [0] ∧
    (R_AddEfrags c8world c8ent c8st).2.topnode =
      some (BspElem.leaf (-1) 0) ∧
    (BspElem.leaf (-1) 0).isNode = false ∧
    BOX_ON_PLANE_SIDE ⟨4, 4, 4⟩ ⟨6, 6, 6⟩ (axialPlane 0 0 0) = 1 := by
  refine ⟨?_, ?_, rfl, by decide⟩ <;>
    norm_num [R_AddEfrags, c8ent, c8st, c8world, R_SplitEntityOnNode,
      BOX_ON_PLANE_SIDE, boxAxialCase, axialPlane, Vec3.comp, CONTENTS_SOLID]

/-- The C8 entity's model bounds. -/
def c8m : Vec3 ℚ × Vec3 ℚ := (⟨-1, -1, -1⟩, ⟨1, 1, 1⟩)

/-- Witness for `addEfrags_topnode_firstStop` on the C8 fixtures. -/
theorem addEfrags_topnode_firstStop_witness :
    c8ent.model = some c8m ∧
    (R_AddEfrags c8world c8ent c8st).2.topnode =
      firstStop ⟨c8ent.origin.x + c8m.1.x, c8ent.origin.y + c8m.1.y,
                 c8ent.origin.z + c8m.1.z⟩
                ⟨c8ent.origin.x + c8m.2.x, c8ent.origin.y + c8m.2.y,
                 c8ent.origin.z + c8m.2.z⟩ c8world :=
  ⟨rfl, addEfrags_topnode_firstStop c8world c8ent c8st c8m rfl⟩

/-- C10: `R_StoreEfrags` adds each entity at most once per frame and never
overflows the visible-entity list: entities already stamped with the
current frame are skipped and never appended; entries are appended only
while the count is strictly below `MAX_VISEDICTS`, so the returned count
never exceeds it; the pre-existing prefix is untouched; every appended
entry is a distinct entity stamped with the current frame. -/
theorem storeEfrags_invariants :
    ∀ (chain : List ℕ) (vis : ℕ → Option ℕ) (num MAX : ℕ) (frame : ℤ)
      (vf : ℕ → ℤ) (hmdl : ℕ → Bool), num ≤ MAX →
    num ≤ (R_StoreEfrags chain vis num MAX frame vf hmdl).2.1 ∧
    (R_StoreEfrags chain vis num MAX frame vf hmdl).2.1 ≤ MAX ∧
    (∀ i, i < num →
      (R_StoreEfrags chain vis num MAX frame vf hmdl).1 i = vis i) ∧
    (∀ e, vf e = frame → ∀ i, num ≤ i →
      i < (R_StoreEfrags chain vis num MAX frame vf hmdl).2.1 →
      (R_StoreEfrags chain vis num MAX frame vf hmdl).1 i ≠ some e) ∧
    (∀ i, num ≤ i →
      i < (R_StoreEfrags chain vis num MAX frame vf hmdl).2.1 →
      ∃ e, (R_StoreEfrags chain vis num MAX frame vf hmdl).1 i = some e ∧
        (R_StoreEfrags chain vis num MAX frame vf hmdl).2.2 e = frame) ∧
    (∀ i j, num ≤ i → i < j →
      j < (R_StoreEfrags chain vis num MAX frame vf hmdl).2.1 →
      ∀ e, (R_StoreEfrags chain vis num MAX frame vf hmdl).1 i = some e →
        (R_StoreEfrags chain vis num MAX frame vf hmdl).1 j ≠ some e) ∧
    (∀ e, vf e = frame →
      (R_StoreEfrags chain vis num MAX frame vf hmdl).2.2 e = frame) := by
  intro chain
  induction chain with
  | nil =>
    intro vis num MAX frame vf hmdl hle
    exact ⟨le_refl _, hle, fun i _ => rfl,
      fun e _ i h1 h2 => absurd h2 (Nat.not_lt.mpr h1),
      fun i h1 h2 => absurd h2 (Nat.not_lt.mpr h1),
      fun i j h1 h2 h3 => absurd h3 (Nat.not_lt.mpr (le_trans h1 h2.le)),
      fun e he => he⟩
  | cons x rest ih =>
    intro vis num MAX frame vf hmdl hle
    simp only [R_StoreEfrags]
    by_cases hc : hmdl x = true ∧ vf x ≠ frame ∧ num < MAX
    · rw [if_pos hc]
      obtain ⟨ha, hb, hcX, hd, heE, hf, hg⟩ := ih
        (Function.update vis num (some x)) (num + 1) MAX frame
        (Function.update vf x frame) hmdl (by omega)
      refine ⟨by omega, hb, ?_, ?_, ?_, ?_, ?_⟩
      · intro i hi
        rw [hcX i (by omega), Function.update_noteq (by omega)]
      · intro e he i hi1 hi2
        have he' : Function.update vf x frame e = frame := by
          by_cases hex : e = x
          · subst hex; simp
          · rw [Function.update_noteq hex]; exact he
        rcases Nat.lt_or_ge i (num + 1) with hi3 | hi3
        · have hieq : i = num := by omega
          subst hieq
          rw [hcX i (by omega), Function.update_same]
          intro hcon
          obtain rfl := (Option.some.injEq _ _).mp hcon
          exact hc.2.1 he
        · exact hd e he' i hi3 hi2
      · intro i hi1 hi2
        rcases Nat.lt_or_ge i (num + 1) with hi3 | hi3
        · have hieq : i = num := by omega
          subst hieq
          refine ⟨x, ?_, ?_⟩
          · rw [hcX i (by omega), Function.update_same]
          · exact hg x (by simp)
        · exact heE i hi3 hi2
      · intro i j hi hij hj e hie
        rcases Nat.lt_or_ge i (num + 1) with hi3 | hi3
        · have hieq : i = num := by omega
          subst hieq
          rw [hcX i (by omega), Function.update_same] at hie
          obtain rfl := (Option.some.injEq _ _).mp hie
          exact hd x (by simp) j (by omega) hj
        · exact hf i j hi3 hij hj e hie
      · intro e he
        refine hg e ?_
        by_cases hex : e = x
        · subst hex; simp
        · rw [Function.update_noteq hex]; exact he
    · rw [if_neg hc]
      exact ih vis num MAX frame vf hmdl hle

/-- Witness for `storeEfrags_invariants` on the chain `[1, 1, 2]` with
capacity 2 and an initially empty list. -/
theorem storeEfrags_invariants_witness :
    (0 : ℕ) ≤ 2 ∧
    (0 ≤ (R_StoreEfrags [1, 1, 2] (fun _ => none) 0 2 1 (fun _ => 0)
        (fun _ => true)).2.1 ∧
    (R_StoreEfrags [1, 1, 2] (fun _ => none) 0 2 1 (fun _ => 0)
        (fun _ => true)).2.1 ≤ 2 ∧
    (∀ i, i < 0 →
      (R_StoreEfrags [1, 1, 2] (fun _ => none) 0 2 1 (fun _ => 0)
        (fun _ => true)).1 i = (fun _ => none : ℕ → Option ℕ) i) ∧
    (∀ e, (fun _ => (0 : ℤ) : ℕ → ℤ) e = 1 → ∀ i, 0 ≤ i →
      i < (R_StoreEfrags [1, 1, 2] (fun _ => none) 0 2 1 (fun _ => 0)
        (fun _ => true)).2.1 →
      (R_StoreEfrags [1, 1, 2] (fun _ => none) 0 2 1 (fun _ => 0)
        (fun _ => true)).1 i ≠ some e) ∧
    (∀ i, 0 ≤ i →
      i < (R_StoreEfrags [1, 1, 2] (fun _ => none) 0 2 1 (fun _ => 0)
        (fun _ => true)).2.1 →
      ∃ e, (R_StoreEfrags [1, 1, 2] (fun _ => none) 0 2 1 (fun _ => 0)
        (fun _ => true)).1 i = some e ∧
        (R_StoreEfrags [1, 1, 2] (fun _ => none) 0 2 1 (fun _ => 0)
          (fun _ => true)).2.2 e = 1) ∧
    (∀ i j, 0 ≤ i → i < j →
      j < (R_StoreEfrags [1, 1, 2] (fun _ => none) 0 2 1 (fun _ => 0)
        (fun _ => true)).2.1 →
      ∀ e, (R_StoreEfrags [1, 1, 2] (fun _ => none) 0 2 1 (fun _ => 0)
        (fun _ => true)).1 i = some e →
        (R_StoreEfrags [1, 1, 2] (fun _ => none) 0 2 1 (fun _ => 0)
          (fun _ => true)).1 j ≠ some e) ∧
    (∀ e, (fun _ => (0 : ℤ) : ℕ → ℤ) e = 1 →
      (R_StoreEfrags [1, 1, 2] (fun _ => none) 0 2 1 (fun _ => 0)
        (fun _ => true)).2.2 e = 1)) :=
  ⟨by decide,
    storeEfrags_invariants [1, 1, 2] (fun _ => none) 0 2 1 (fun _ => 0)
      (fun _ => true) (by decide)⟩

end ThreeQuake
